import Mathlib

/-! ## CaretAEC and IoAudio: echo-cancellation glue code

A shallow embedding of `src/CaretAEC/CaretAEC.cc` and `src/io_audio.cpp`.

* The WebRTC objects (echo controller, high-pass filter, audio buffers) are
  external collaborators.  They are a parameter of every definition: a record
  `Webrtc` of operations on abstract object states, each of which may fail.
* C++ statements that mutate the object are programs `Prog σ β`: functions from
  the state `σ` to the state reached and either a value or a `Fault`.
* The samples (`float` in CaretAEC, raw bytes in IoAudio) are an arbitrary
  type `α`; no claim depends on their arithmetic.
-/

/-! ## Faults and programs -/

/-- The two ways a C++ call leaves its normal path: a thrown `std::exception`
(what a `catch (const std::exception&)` clause handles) and undefined behaviour
(null dereference, division by zero, access past a buffer), which no handler
intercepts. -/
inductive Fault where
  | exception (what : String)
  | undefined (what : String)
  deriving DecidableEq, Repr

deriving instance DecidableEq for Except

/-- A statement sequence over the object state `σ` producing a `β`: the state
reached is reported on both the normal and the faulty path. -/
def Prog (σ β : Type) : Type := σ → σ × Except Fault β

namespace Prog

variable {σ β γ : Type}

/-- Normal completion with a value. -/
def ret (b : β) : Prog σ β := fun s => (s, .ok b)

/-- Sequencing: the second program runs only when the first completes. -/
def andThen (m : Prog σ β) (f : β → Prog σ γ) : Prog σ γ := fun s =>
  match m s with
  | (s', .ok b) => f b s'
  | (s', .error e) => (s', .error e)

instance : Monad (Prog σ) where
  pure := ret
  bind := andThen

/-- The current object state. -/
def read : Prog σ σ := fun s => (s, .ok s)

/-- An assignment to the object state. -/
def modify (f : σ → σ) : Prog σ Unit := fun s => (f s, .ok ())

/-- Leave the normal path with fault `e`. -/
def raise (e : Fault) : Prog σ β := fun s => (s, .error e)

/-- The outcome of a call that does not touch the object state. -/
def call (r : Except Fault β) : Prog σ β := fun s => (s, r)

/-- The C++ block `try { body } catch (const std::exception& e) { handler }`:
only a thrown exception reaches the handler; undefined behaviour does not. -/
def tryCatch (body : Prog σ β) (handler : String → Prog σ β) : Prog σ β := fun s =>
  match body s with
  | (s', .ok b) => (s', .ok b)
  | (s', .error (.exception what)) => handler what s'
  | (s', .error (.undefined what)) => (s', .error (.undefined what))

end Prog

/-! ## Machine integers and raw memory -/

/-- Conversion of an `int` to `size_t` (64 bit): reduction modulo `2^64`. -/
def toSizeT (x : Int) : Nat := (x % (2 : Int) ^ 64).toNat

/-- The `count` elements a pointer `&buf[offset]` gives access to. -/
def frameAt {α : Type} (buf : List α) (offset count : Nat) : List α :=
  (buf.drop offset).take count

/-- Element-wise store of `xs` through a pointer `&buf[offset]`: the storage
keeps its size; the stores stop at the end of the storage. -/
def writeAt {α : Type} : List α → Nat → List α → List α
  | [], _, _ => []
  | b :: bs, 0, [] => b :: bs
  | _ :: bs, 0, x :: xs => x :: writeAt bs 0 xs
  | b :: bs, off + 1, xs => b :: writeAt bs off xs

/-- Reading `n` elements through a raw pointer to the memory `mem`; reading
past the end of the memory is undefined behaviour. -/
def readN {σ α : Type} (mem : List α) (n : Nat) : Prog σ (List α) :=
  if n ≤ mem.length then Prog.ret (mem.take n)
  else Prog.raise (.undefined "read past the end of the buffer")

/-- Writing `xs` through a raw pointer to the memory `mem` (as `std::copy` and
`memcpy` do); writing past the end of the memory is undefined behaviour. -/
def writeN {σ α : Type} (mem : List α) (xs : List α) : Prog σ (List α) :=
  if xs.length ≤ mem.length then Prog.ret (writeAt mem 0 xs)
  else Prog.raise (.undefined "write past the end of the buffer")

/-! ## The external collaborators -/

/-- A call received by the echo controller. -/
inductive EngineCall where
  | AnalyzeRender
  | AnalyzeCapture
  | SetAudioBufferDelay (delay : Int)
  | ProcessCapture (level_change : Bool)
  deriving DecidableEq, Repr

/-- The WebRTC library as seen from the glue code.  `E`, `H` and `B` are the
states of an `EchoControl`, a `HighPassFilter` and an `AudioBuffer`.  Every
operation may fail.  `Create` is `EchoCanceller3Factory::Create`, whose result
is a `std::unique_ptr` and may therefore be null.  `CopyFrom` receives, for
each channel, the frame behind that channel pointer; `CopyTo` yields the sample
it stores for each channel and index. -/
structure Webrtc (α E H B : Type) where
  Create : Int → Int → Int → Except Fault (Option E)
  HighPassFilter : Int → Int → Except Fault H
  AudioBuffer : Int → Int → Except Fault B
  CopyFrom : B → List (List α) → Except Fault B
  CopyTo : B → Except Fault (Nat → Nat → α)
  SplitIntoFrequencyBands : B → Except Fault B
  MergeFrequencyBands : B → Except Fault B
  Process : H → B → Bool → Except Fault (H × B)
  AnalyzeRender : E → B → Except Fault (E × B)
  AnalyzeCapture : E → B → Except Fault (E × B)
  SetAudioBufferDelay : E → Int → Except Fault E
  ProcessCapture : E → B → Bool → Except Fault (E × B)

/-- An echo controller object: its state and, as a ghost field, the calls it
has received since it was created, oldest first. -/
structure EchoControl (E : Type) where
  state : E
  calls : List EngineCall
  deriving DecidableEq, Repr

/-! ## CaretAEC (`src/CaretAEC/CaretAEC.cc`) -/

/-- The members of class `CaretAEC`; an absent pointer is `none`. -/
structure CaretAEC (E H B : Type) where
  echo_controller_ : Option (EchoControl E)
  hp_filter_ : Option H
  ref_audio_ : Option B
  aec_audio_ : Option B
  sample_rate_ : Int
  channels_ : Int
  initialized_ : Bool
  deriving DecidableEq, Repr

namespace CaretAEC

variable {α E H B : Type}

/-- The constructor `CaretAEC::CaretAEC()`. -/
def new : CaretAEC E H B where
  echo_controller_ := none
  hp_filter_ := none
  ref_audio_ := none
  aec_audio_ := none
  sample_rate_ := 0
  channels_ := 0
  initialized_ := false

/-- The method `CaretAEC::shutdown()`. -/
def shutdown (s : CaretAEC E H B) : CaretAEC E H B :=
  if s.initialized_ then
    { s with
      echo_controller_ := none
      hp_filter_ := none
      ref_audio_ := none
      aec_audio_ := none
      initialized_ := false }
  else s

/-- The two staging buffers of a session. -/
inductive Staging where
  | ref
  | aec
  deriving DecidableEq, Repr

/-- The pointer `ref_audio_` or `aec_audio_`. -/
def buffer (s : CaretAEC E H B) : Staging → Option B
  | .ref => s.ref_audio_
  | .aec => s.aec_audio_

/-- The object behind `ref_audio_` or `aec_audio_` after a method has run on it. -/
def setBuffer (s : CaretAEC E H B) : Staging → B → CaretAEC E H B
  | .ref, b => { s with ref_audio_ := some b }
  | .aec, b => { s with aec_audio_ := some b }

/-- A call `buf->method(...)` of an `AudioBuffer` method that updates the
buffer (`CopyFrom`, `SplitIntoFrequencyBands`, `MergeFrequencyBands`). -/
def onBuffer (which : Staging) (method : B → Except Fault B) : Prog (CaretAEC E H B) Unit :=
  fun s =>
    match s.buffer which with
    | none => (s, .error (.undefined "null AudioBuffer"))
    | some b =>
      match method b with
      | .ok b' => (s.setBuffer which b', .ok ())
      | .error f => (s, .error f)

/-- A call `echo_controller_->method(buf.get(), ...)`, recorded in the
controller's call history as `call`. -/
def onEngine (call : EngineCall) (which : Staging)
    (method : E → B → Except Fault (E × B)) : Prog (CaretAEC E H B) Unit :=
  fun s =>
    match s.echo_controller_, s.buffer which with
    | some ec, some b =>
      match method ec.state b with
      | .ok (e', b') =>
        ({ s with echo_controller_ := some ⟨e', ec.calls ++ [call]⟩ }.setBuffer which b', .ok ())
      | .error f =>
        ({ s with echo_controller_ := some ⟨ec.state, ec.calls ++ [call]⟩ }, .error f)
    | _, _ => (s, .error (.undefined "null EchoControl or AudioBuffer"))

/-- The call `echo_controller_->SetAudioBufferDelay(delay)`. -/
def setAudioBufferDelay (c : Webrtc α E H B) (delay : Int) : Prog (CaretAEC E H B) Unit :=
  fun s =>
    match s.echo_controller_ with
    | none => (s, .error (.undefined "null EchoControl"))
    | some ec =>
      let calls := ec.calls ++ [EngineCall.SetAudioBufferDelay delay]
      match c.SetAudioBufferDelay ec.state delay with
      | .ok e' => ({ s with echo_controller_ := some ⟨e', calls⟩ }, .ok ())
      | .error f => ({ s with echo_controller_ := some ⟨ec.state, calls⟩ }, .error f)

/-- The call `hp_filter_->Process(aec_audio_.get(), use_split_band_data)`. -/
def highPass (c : Webrtc α E H B) (use_split_band_data : Bool) : Prog (CaretAEC E H B) Unit :=
  fun s =>
    match s.hp_filter_, s.aec_audio_ with
    | some h, some b =>
      match c.Process h b use_split_band_data with
      | .ok (h', b') => ({ s with hp_filter_ := some h', aec_audio_ := some b' }, .ok ())
      | .error f => (s, .error f)
    | _, _ => (s, .error (.undefined "null HighPassFilter or AudioBuffer"))

/-- The call `aec_audio_->CopyTo(stream_config, out_channels.data())`: for each
of the `channels` channel pointers in turn, `samples_per_frame` samples are
stored at `&processed_buffer[frame_offset]`. -/
def copyTo (c : Webrtc α E H B) (channels samples_per_frame frame_offset : Nat)
    (processed_buffer : List α) : Prog (CaretAEC E H B) (List α) :=
  fun s =>
    match s.aec_audio_ with
    | none => (s, .error (.undefined "null AudioBuffer"))
    | some b =>
      match c.CopyTo b with
      | .ok g =>
        (s, .ok ((List.range channels).foldl
          (fun buf ch => writeAt buf frame_offset (List.ofFn fun i : Fin samples_per_frame => g ch i))
          processed_buffer))
      | .error f => (s, .error f)

/-- The construction `std::vector<T*> v(channels_)`: the `int` is converted to
`size_t`, and a negative count exceeds `max_size()`, which throws
`std::length_error`. -/
def channelVectors (channels : Int) : Prog (CaretAEC E H B) Nat :=
  if channels < 0 then Prog.raise (.exception "cannot create std::vector larger than max_size()")
  else Prog.ret channels.toNat

/-- The body of the frame loop of `applyingEchoCancellation` (lines 180-235)
for frame index `frame`; the value is `processed_buffer` after the frame. -/
def processFrame (c : Webrtc α E H B) (system_audio_buffer mic_audio_buffer : List α)
    (samples_per_frame frame : Nat) (processed_buffer : List α) :
    Prog (CaretAEC E H B) (List α) := do
  let frame_offset := frame * samples_per_frame
  let s ← Prog.read
  let channels ← channelVectors s.channels_
  let system_channels := List.replicate channels (frameAt system_audio_buffer frame_offset samples_per_frame)
  let mic_channels := List.replicate channels (frameAt mic_audio_buffer frame_offset samples_per_frame)
  onBuffer .ref (fun b => c.CopyFrom b system_channels)
  onBuffer .ref c.SplitIntoFrequencyBands
  onEngine .AnalyzeRender .ref c.AnalyzeRender
  onBuffer .ref c.MergeFrequencyBands
  onBuffer .aec (fun b => c.CopyFrom b mic_channels)
  onEngine .AnalyzeCapture .aec c.AnalyzeCapture
  onBuffer .aec c.SplitIntoFrequencyBands
  highPass c true
  setAudioBufferDelay c (-10)
  onEngine (.ProcessCapture false) .aec (fun e b => c.ProcessCapture e b false)
  onBuffer .aec c.MergeFrequencyBands
  copyTo c channels samples_per_frame frame_offset processed_buffer

/-- The loop `for (frame = ...; frame < num_frames; ++frame)` with `remaining`
iterations left, the next one for index `frame`. -/
def frameLoop (c : Webrtc α E H B) (system_audio_buffer mic_audio_buffer : List α)
    (samples_per_frame : Nat) : (remaining frame : Nat) → List α → Prog (CaretAEC E H B) (List α)
  | 0, _, processed_buffer => Prog.ret processed_buffer
  | remaining + 1, frame, processed_buffer => do
    let processed_buffer ← processFrame c system_audio_buffer mic_audio_buffer
      samples_per_frame frame processed_buffer
    frameLoop c system_audio_buffer mic_audio_buffer samples_per_frame remaining (frame + 1)
      processed_buffer

/-- The guard of lines 156-157: the session cannot process. -/
def notReady (s : CaretAEC E H B) : Bool :=
  !s.initialized_ || s.echo_controller_.isNone || s.hp_filter_.isNone ||
    s.ref_audio_.isNone || s.aec_audio_.isNone

/-- The method `CaretAEC::applyingEchoCancellation`. -/
def applyingEchoCancellation (c : Webrtc α E H B)
    (system_audio_buffer mic_audio_buffer : List α) : Prog (CaretAEC E H B) (List α) := do
  let s ← Prog.read
  if s.notReady then
    Prog.ret mic_audio_buffer
  else if system_audio_buffer.length ≠ mic_audio_buffer.length then
    Prog.ret mic_audio_buffer
  else
    let num_samples := mic_audio_buffer.length
    let samples_per_frame := toSizeT (Int.tdiv s.sample_rate_ 100)
    if samples_per_frame = 0 then
      Prog.raise (.undefined "division by zero")
    else
      let num_frames := num_samples / samples_per_frame
      frameLoop c system_audio_buffer mic_audio_buffer samples_per_frame num_frames 0
        mic_audio_buffer

/-- The method `CaretAEC::initialize` (the name is a Lean keyword, hence the
underscore); `c.Create` is the factory built from the configuration of lines
96-127. -/
def initialize_ (c : Webrtc α E H B) (sampleRate channels : Int) :
    Prog (CaretAEC E H B) Bool := do
  Prog.modify fun s => if s.initialized_ then s.shutdown else s
  Prog.modify fun s => { s with sample_rate_ := sampleRate, channels_ := channels }
  let engine ← Prog.call (c.Create sampleRate channels channels)
  Prog.modify fun s => { s with echo_controller_ := engine.map fun e => ⟨e, []⟩ }
  let filter ← Prog.call (c.HighPassFilter sampleRate channels)
  Prog.modify fun s => { s with hp_filter_ := some filter }
  let ref ← Prog.call (c.AudioBuffer sampleRate channels)
  Prog.modify fun s => { s with ref_audio_ := some ref }
  let aec ← Prog.call (c.AudioBuffer sampleRate channels)
  Prog.modify fun s => { s with aec_audio_ := some aec }
  Prog.modify fun s => { s with initialized_ := true }
  Prog.ret true

end CaretAEC

/-! ## The C bridge of `CaretAEC.cc`; the state is the singleton `CaretAEC::shared()` -/

/-- The bridge function `CaretAEC_ProcessBuffers`.  A pointer argument is
`none` when null and otherwise the memory it points to.  The value is the
memory behind `outputBuffer` after the call and the count returned. -/
def CaretAEC_ProcessBuffers {α E H B : Type} (c : Webrtc α E H B)
    (systemBuffer micBuffer outputBuffer : Option (List α)) (bufferSize : Nat) :
    Prog (CaretAEC E H B) (Option (List α) × Nat) :=
  match systemBuffer, micBuffer, outputBuffer with
  | some systemMem, some micMem, some outputMem =>
    if bufferSize = 0 then Prog.ret (outputBuffer, 0)
    else
      Prog.tryCatch
        (do
          let systemBufferVec ← readN systemMem bufferSize
          let micBufferVec ← readN micMem bufferSize
          let result ← CaretAEC.applyingEchoCancellation c systemBufferVec micBufferVec
          let resultSize := result.length
          let copySize := min resultSize bufferSize
          let written ← writeN outputMem (result.take copySize)
          Prog.ret (some written, copySize))
        (fun _ => do
          let mic ← readN micMem bufferSize
          let written ← writeN outputMem mic
          Prog.ret (some written, bufferSize))
  | _, _, _ => Prog.ret (outputBuffer, 0)

/-- The bridge function `CaretAEC_Initialize`. -/
def CaretAEC_Initialize {α E H B : Type} (c : Webrtc α E H B) (sampleRate channels : Int) :
    Prog (CaretAEC E H B) Bool :=
  Prog.tryCatch ( CaretAEC.initialize_ c sampleRate channels) (fun _ => Prog.ret false)

/-- The bridge function `CaretAEC_Shutdown`. -/
def CaretAEC_Shutdown {E H B : Type} : Prog (CaretAEC E H B) Unit :=
  Prog.tryCatch (Prog.modify CaretAEC.shutdown) (fun _ => Prog.ret ())

/-! ## IoAudio (`src/io_audio.cpp`) -/

/-- Modelled from the spec: the class `RingBuffer` of the four queues, whose
source is not among the files at hand (section 4.1): a FIFO of raw bytes. -/
structure RingBuffer (α : Type) where
  bytes : List α
  deriving DecidableEq, Repr

namespace RingBuffer

variable {α : Type}

/-- Modelled from the spec: `put(bytes)` of the absent class `RingBuffer`
appends `bytes` to the tail and never fails. -/
def putData (q : RingBuffer α) (data : List α) : RingBuffer α := ⟨q.bytes ++ data⟩

/-- Modelled from the spec: `pop(n)` of the absent class `RingBuffer`: if fewer
than `n` bytes are available it returns an empty result without consuming
anything; otherwise it removes and returns exactly `n` bytes from the head,
preserving order.  The value is the result and the queue left. -/
def pop (q : RingBuffer α) (n : Nat) : List α × RingBuffer α :=
  if q.bytes.length < n then ([], q) else (q.bytes.take n, ⟨q.bytes.drop n⟩)

/-- Modelled from the spec: `size()` of the absent class `RingBuffer`, the
current byte count. -/
def size (q : RingBuffer α) : Nat := q.bytes.length

/-- Modelled from the spec: `isEmpty()` of the absent class `RingBuffer`:
the byte count is zero. -/
def isEmpty (q : RingBuffer α) : Bool := q.bytes.isEmpty

/-- Modelled from the spec: `clear()` of the absent class `RingBuffer`
empties the buffer. -/
def clear (_q : RingBuffer α) : RingBuffer α := ⟨[]⟩

end RingBuffer

/-- Modelled from the spec: the pipeline states of the absent header
`io_audio.h` (section 3, PipelineState); the source uses these three. -/
inductive StatusType where
  | Stop
  | Run
  | Destroy
  deriving DecidableEq, Repr

/-- The audio modes: the source only ever compares `m_mode` with
`AudioMode::Audio16Khz`; `other` stands for every other enumerator of the
absent header. -/
inductive AudioMode where
  | Audio16Khz
  | other
  deriving DecidableEq, Repr

/-- A `QThread` as the destructor sees it: `isRunning()` holds for the next
`running` polls, one poll every `msleep(100)`. -/
structure QThread where
  running : Nat
  deleteLater : Bool
  deriving DecidableEq, Repr

/-- The event loop object behind `m_app`: the code passed to `exit`, if any. -/
structure QCoreApplication where
  exited : Option Int
  deriving DecidableEq, Repr

/-- A `QAudioSink` or `QAudioSource`: the free space `bytesFree()` reports and
whether `stop()` and `deleteLater()` have been called. -/
structure QAudioStream where
  bytesFree : Int
  stopped : Bool
  deleteLater : Bool
  deriving DecidableEq, Repr

/-- A `QIODevice`: the bytes written to it so far and the bytes `readAll()`
would return. -/
structure QIODevice (α : Type) where
  written : List α
  readable : List α
  deriving DecidableEq, Repr

/-- A `webrtc::AudioFrame`: the raw bytes of its 16-bit samples and its
`samples_per_channel_`. -/
structure AudioFrame (α : Type) where
  data : List α
  samples_per_channel_ : Nat
  deriving DecidableEq, Repr

/-- A call of one of the two frame methods of `IoAudio`, with its arguments
(ghost). -/
inductive AecCall (α : Type) where
  | aecPutFarEndFrame (input : List α) (samplesCount : Int)
  | aecProcess (input : List α) (samplesCount : Int)
  deriving DecidableEq, Repr

/-- The members of class `IoAudio`; an absent pointer is `none`.  The field
`aecCalls` is a ghost: the calls of `aecPutFarEndFrame` and `aecProcess` made
so far, oldest first. -/
structure IoAudio (α E H B : Type) where
  m_status : StatusType
  m_mode : AudioMode
  m_app : Option QCoreApplication
  m_audioSource : Option QAudioStream
  m_audioSink : Option QAudioStream
  m_audioInDevice : Option (QIODevice α)
  m_audioOutDevice : Option (QIODevice α)
  m_qobject_thread : Option QThread
  m_api_thread : Option QThread
  _audioOutBuf : RingBuffer α
  _echoBuff : RingBuffer α
  _micBuf : RingBuffer α
  _sendToNetBuf : RingBuffer α
  echo_controler : Option (EchoControl E)
  hp_filter : Option H
  ref_audio : Option B
  aec_audio : Option B
  ref_frame : AudioFrame α
  aec_frame : AudioFrame α
  aecCalls : List (AecCall α)
  deriving DecidableEq, Repr

namespace IoAudio

variable {α E H B : Type}

/-- The constructor `IoAudio::IoAudio()` (lines 12-22 and 69): every handle is
`NULL` except the worker thread, which is created and started.  `m_mode` is
not assigned by the constructor and `running` is how long the worker thread
will take to leave its loop once asked to; both are given. -/
def new (m_mode : AudioMode) (running : Nat) : IoAudio α E H B where
  m_status := .Stop
  m_mode := m_mode
  m_app := none
  m_audioSource := none
  m_audioSink := none
  m_audioInDevice := none
  m_audioOutDevice := none
  m_qobject_thread := none
  m_api_thread := some ⟨running, false⟩
  _audioOutBuf := ⟨[]⟩
  _echoBuff := ⟨[]⟩
  _micBuf := ⟨[]⟩
  _sendToNetBuf := ⟨[]⟩
  echo_controler := none
  hp_filter := none
  ref_audio := none
  aec_audio := none
  ref_frame := ⟨[], 0⟩
  aec_frame := ⟨[], 0⟩
  aecCalls := []

/-- Dereferencing a pointer: a null pointer is undefined behaviour. -/
def deref {σ γ : Type} (name : String) : Option γ → Prog σ γ
  | some x => Prog.ret x
  | none => Prog.raise (.undefined ("null pointer " ++ name))

/-- The call `QThread::msleep(100)` in the destructor: one poll interval
passes for both threads. -/
def msleep (s : IoAudio α E H B) : IoAudio α E H B :=
  { s with
    m_api_thread := s.m_api_thread.map fun t => { t with running := t.running - 1 }
    m_qobject_thread := s.m_qobject_thread.map fun t => { t with running := t.running - 1 } }

/-- The loop condition of line 84,
`m_api_thread->isRunning() || m_qobject_thread->isRunning()`: the second
operand is evaluated only when the first is false. -/
def threadsRunning : Prog (IoAudio α E H B) Bool := do
  let s ← Prog.read
  let api ← deref "m_api_thread" s.m_api_thread
  if 0 < api.running then Prog.ret true
  else do
    let q ← deref "m_qobject_thread" s.m_qobject_thread
    Prog.ret (decide (0 < q.running))

/-- The loop of lines 84-86, `while (...) QThread::msleep(100)`, for at most
`polls` sleeps. -/
def waitThreads : (polls : Nat) → Prog (IoAudio α E H B) Unit
  | 0 => do
    let waiting ← threadsRunning
    if waiting then Prog.raise (.undefined "the threads never finish") else Prog.ret ()
  | polls + 1 => do
    let waiting ← threadsRunning
    if waiting then do
      Prog.modify msleep
      waitThreads polls
    else Prog.ret ()

/-- The method `IoAudio::destroyAec()`: it takes the lock and does nothing. -/
def destroyAec : Prog (IoAudio α E H B) Unit := Prog.ret ()

/-- The polls after which both threads have finished. -/
def pollsLeft (s : IoAudio α E H B) : Nat :=
  (s.m_api_thread.elim 0 fun t => t.running) + (s.m_qobject_thread.elim 0 fun t => t.running)

/-- The destructor `IoAudio::~IoAudio()` (lines 72-103), run without the
worker loop in between. -/
def destructor : Prog (IoAudio α E H B) Unit := do
  Prog.modify fun s => { s with m_status := .Destroy }
  Prog.modify fun s => { s with _audioOutBuf := s._audioOutBuf.clear }
  Prog.modify fun s => { s with _micBuf := s._micBuf.clear }
  Prog.modify fun s => { s with _echoBuff := s._echoBuff.clear }
  Prog.modify fun s => if s.m_app.isSome then { s with m_app := none } else s -- exit(0)
  let s ← Prog.read
  waitThreads s.pollsLeft
  let s ← Prog.read
  let api ← deref "m_api_thread" s.m_api_thread
  Prog.modify fun s => { s with m_api_thread := some { api with deleteLater := true } }
  let q ← deref "m_qobject_thread" s.m_qobject_thread
  Prog.modify fun s => { s with m_qobject_thread := some { q with deleteLater := true } }
  Prog.modify fun s =>
    { s with m_audioSource := s.m_audioSource.map fun a => { a with stopped := true, deleteLater := true } }
  Prog.modify fun s =>
    { s with m_audioSink := s.m_audioSink.map fun a => { a with stopped := true, deleteLater := true } }
  destroyAec
  Prog.modify fun s =>
    { s with m_audioSource := none, m_audioSink := none, m_audioInDevice := none,
             m_audioOutDevice := none }

/-- The staging buffer `ref_audio` or `aec_audio`. -/
def buffer (s : IoAudio α E H B) : CaretAEC.Staging → Option B
  | .ref => s.ref_audio
  | .aec => s.aec_audio

/-- The object behind `ref_audio` or `aec_audio` after a method has run on it. -/
def setBuffer (s : IoAudio α E H B) : CaretAEC.Staging → B → IoAudio α E H B
  | .ref, b => { s with ref_audio := some b }
  | .aec, b => { s with aec_audio := some b }

/-- The frame container `ref_frame` or `aec_frame`. -/
def frame (s : IoAudio α E H B) : CaretAEC.Staging → AudioFrame α
  | .ref => s.ref_frame
  | .aec => s.aec_frame

/-- The frame container `ref_frame` or `aec_frame` after an update. -/
def setFrame (s : IoAudio α E H B) : CaretAEC.Staging → AudioFrame α → IoAudio α E H B
  | .ref, f => { s with ref_frame := f }
  | .aec, f => { s with aec_frame := f }

/-- The method `IoAudio::initAec` (lines 191-214); `c.Create` is the factory
built from the configuration of lines 195-198, and `channels` is 1. -/
def initAec (c : Webrtc α E H B) (sampleRate : Int) : Prog (IoAudio α E H B) Bool := do
  let channels : Int := 1
  let engine ← Prog.call (c.Create sampleRate channels channels)
  Prog.modify fun s => { s with echo_controler := engine.map fun e => ⟨e, []⟩ }
  let filter ← Prog.call (c.HighPassFilter sampleRate channels)
  Prog.modify fun s => { s with hp_filter := some filter }
  let ref ← Prog.call (c.AudioBuffer sampleRate channels)
  Prog.modify fun s => { s with ref_audio := some ref }
  let aec ← Prog.call (c.AudioBuffer sampleRate channels)
  Prog.modify fun s => { s with aec_audio := some aec }
  Prog.ret true

/-- The call `frame.UpdateFrame(0, (int16_t*) in.data(), samples, sampleRate,
kNormalSpeech, kVadActive, 1)`: the frame takes the `samples` 16-bit samples,
that is `2 * samples` bytes, found at the start of `in`. -/
def updateFrame (which : CaretAEC.Staging) (input : List α) (samples : Nat) :
    Prog (IoAudio α E H B) Unit := do
  let data ← readN input (2 * samples)
  Prog.modify fun s => s.setFrame which ⟨data, samples⟩

/-- The call `buf->CopyFrom(&frame)` on a staging buffer and its frame
container (one channel). -/
def copyFromFrame (c : Webrtc α E H B) (which : CaretAEC.Staging) :
    Prog (IoAudio α E H B) Unit := do
  let s ← Prog.read
  let b ← deref "AudioBuffer" (s.buffer which)
  let b ← Prog.call (c.CopyFrom b [(s.frame which).data])
  Prog.modify fun s => s.setBuffer which b

/-- The call `hp_filter->Process(buf.get(), use_split_band_data)`. -/
def highPass (c : Webrtc α E H B) (which : CaretAEC.Staging) (use_split_band_data : Bool) :
    Prog (IoAudio α E H B) Unit := do
  let s ← Prog.read
  let h ← deref "hp_filter" s.hp_filter
  let b ← deref "AudioBuffer" (s.buffer which)
  let r ← Prog.call (c.Process h b use_split_band_data)
  Prog.modify fun s => { s with hp_filter := some r.1 }.setBuffer which r.2

/-- A call `echo_controler->method(buf.get(), ...)`, recorded in the
controller's call history as `call`. -/
def onEngine (call : EngineCall) (which : CaretAEC.Staging)
    (method : E → B → Except Fault (E × B)) : Prog (IoAudio α E H B) Unit := do
  let s ← Prog.read
  let ec ← deref "echo_controler" s.echo_controler
  let b ← deref "AudioBuffer" (s.buffer which)
  Prog.modify fun s => { s with echo_controler := some ⟨ec.state, ec.calls ++ [call]⟩ }
  let r ← Prog.call (method ec.state b)
  Prog.modify fun s =>
    { s with echo_controler := some ⟨r.1, ec.calls ++ [call]⟩ }.setBuffer which r.2

/-- The call `aec_audio->CopyTo(&aec_frame)`: the frame container receives its
`samples_per_channel_` samples from the buffer (one channel). -/
def copyToFrame (c : Webrtc α E H B) : Prog (IoAudio α E H B) Unit := do
  let s ← Prog.read
  let b ← deref "aec_audio" s.aec_audio
  let g ← Prog.call (c.CopyTo b)
  Prog.modify fun s =>
    { s with aec_frame :=
      { s.aec_frame with
        data := List.ofFn fun i : Fin (2 * s.aec_frame.samples_per_channel_) => g 0 i } }

/-- The sample rate both frame methods compute from `m_mode`. -/
def sampleRate (s : IoAudio α E H B) : Int :=
  if s.m_mode = AudioMode.Audio16Khz then 16000 else 8000

/-- The loop of lines 224-231 with `nCount` iterations left: every iteration
loads the frame from `in.data()`. -/
def putFarEndLoop (c : Webrtc α E H B) (input : List α) (samples : Nat) :
    (nCount : Nat) → Prog (IoAudio α E H B) Unit
  | 0 => Prog.ret ()
  | nCount + 1 => do
    updateFrame .ref input samples
    copyFromFrame c .ref
    highPass c .ref false
    onEngine .AnalyzeRender .ref c.AnalyzeRender
    putFarEndLoop c input samples nCount

/-- The method `IoAudio::aecPutFarEndFrame` (lines 216-232). -/
def aecPutFarEndFrame (c : Webrtc α E H B) (input : List α) (samplesCount : Int) :
    Prog (IoAudio α E H B) Unit := do
  Prog.modify fun s =>
    { s with aecCalls := s.aecCalls ++ [AecCall.aecPutFarEndFrame input samplesCount] }
  let s ← Prog.read
  let sampleRate := s.sampleRate
  let samples := toSizeT (min samplesCount (Int.tdiv sampleRate 100))
  if samples = 0 then Prog.ret ()
  else
    let nCount := toSizeT samplesCount / samples
    putFarEndLoop c input samples nCount

/-- The loop of lines 244-254 with `nCount` iterations left; the value is the
vector `out` after the loop.  Every iteration loads the frame from `in.data()`
and stores the result at `out.data()`. -/
def processLoop (c : Webrtc α E H B) (input : List α) (samples : Nat) :
    (nCount : Nat) → (out : List α) → Prog (IoAudio α E H B) (List α)
  | 0, out => Prog.ret out
  | nCount + 1, out => do
    updateFrame .aec input samples
    copyFromFrame c .aec
    highPass c .aec false
    onEngine .AnalyzeCapture .aec c.AnalyzeCapture
    onEngine (.ProcessCapture true) .aec (fun e b => c.ProcessCapture e b true)
    copyToFrame c
    let s ← Prog.read
    let processed ← readN s.aec_frame.data (samples * 2)
    let out ← writeN out processed
    processLoop c input samples nCount out

/-- The method `IoAudio::aecProcess` (lines 234-255); the value is the vector
`out` after the call. -/
def aecProcess (c : Webrtc α E H B) (input out : List α) (samplesCount : Int) :
    Prog (IoAudio α E H B) (List α) := do
  Prog.modify fun s =>
    { s with aecCalls := s.aecCalls ++ [AecCall.aecProcess input samplesCount] }
  let s ← Prog.read
  let sampleRate := s.sampleRate
  let samples := toSizeT (min samplesCount (Int.tdiv sampleRate 100))
  if samples = 0 then Prog.ret out
  else
    let nCount := toSizeT samplesCount / samples
    processLoop c input samples nCount out

/-- Step 1 of the worker loop (lines 28-36), with `sampleSize` the value of
the constant `MIN_SAMPLE_SIZE` of the absent header. -/
def playbackDrain (sampleSize : Nat) : Prog (IoAudio α E H B) Unit := do
  let s ← Prog.read
  if !s._audioOutBuf.isEmpty then
    match s.m_audioSink with
    | none => Prog.ret ()
    | some sink =>
      if (sampleSize : Int) ≤ sink.bytesFree then do
        let item := (s._audioOutBuf.pop sampleSize).1
        Prog.modify fun s => { s with _audioOutBuf := (s._audioOutBuf.pop sampleSize).2 }
        let device ← deref "m_audioOutDevice" s.m_audioOutDevice
        Prog.modify fun s =>
          { s with m_audioOutDevice := some { device with written := device.written ++ item } }
        Prog.modify fun s => { s with _echoBuff := s._echoBuff.putData item }
      else Prog.ret ()
  else Prog.ret ()

/-- The inner loop of lines 51-54,
`while (_echoBuff.size() >= MIN_SAMPLE_SIZE)`, for at most `fuel` iterations;
a loop that needs more iterations than that does not end. -/
def drainEcho (c : Webrtc α E H B) (MIN_SAMPLE_SIZE : Nat) :
    (fuel : Nat) → Prog (IoAudio α E H B) Unit
  | 0 => do
    let s ← Prog.read
    if MIN_SAMPLE_SIZE ≤ s._echoBuff.size then
      Prog.raise (.undefined "the loop does not end")
    else Prog.ret ()
  | fuel + 1 => do
    let s ← Prog.read
    if MIN_SAMPLE_SIZE ≤ s._echoBuff.size then do
      let echoFrame := (s._echoBuff.pop MIN_SAMPLE_SIZE).1
      Prog.modify fun s => { s with _echoBuff := (s._echoBuff.pop MIN_SAMPLE_SIZE).2 }
      aecPutFarEndFrame c echoFrame ((MIN_SAMPLE_SIZE / 2 : Nat) : Int)
      drainEcho c MIN_SAMPLE_SIZE fuel
    else Prog.ret ()

/-- The outer loop of lines 47-57, `while (_micBuf.size() >= MIN_SAMPLE_SIZE)`,
for at most `fuel` iterations; a loop that needs more iterations than that
does not end.  `zero` is the byte a value-initialised `uint8_t` holds.  The
value is a ghost: the object as it was at each call of `aecProcess`, oldest
first. -/
def frameProcessingLoop (c : Webrtc α E H B) (MIN_SAMPLE_SIZE : Nat) (zero : α) :
    (fuel : Nat) → Prog (IoAudio α E H B) (List (IoAudio α E H B))
  | 0 => do
    let s ← Prog.read
    if MIN_SAMPLE_SIZE ≤ s._micBuf.size then
      Prog.raise (.undefined "the loop does not end")
    else Prog.ret []
  | fuel + 1 => do
    let s ← Prog.read
    if MIN_SAMPLE_SIZE ≤ s._micBuf.size then do
      let raw := (s._micBuf.pop MIN_SAMPLE_SIZE).1
      Prog.modify fun s => { s with _micBuf := (s._micBuf.pop MIN_SAMPLE_SIZE).2 }
      let out := List.replicate MIN_SAMPLE_SIZE zero
      let s ← Prog.read
      drainEcho c MIN_SAMPLE_SIZE s._echoBuff.size
      let atCall ← Prog.read
      let out ← aecProcess c raw out ((MIN_SAMPLE_SIZE / 2 : Nat) : Int)
      Prog.modify fun s => { s with _sendToNetBuf := s._sendToNetBuf.putData out }
      let later ← frameProcessingLoop c MIN_SAMPLE_SIZE zero fuel
      Prog.ret (atCall :: later)
    else Prog.ret []

/-- Step 3 of the worker loop (lines 45-57), with `MIN_SAMPLE_SIZE` the
constant of the absent header and no other thread touching the queues.  The
value is the ghost of `frameProcessingLoop`. -/
def frameProcessing (c : Webrtc α E H B) (MIN_SAMPLE_SIZE : Nat) (zero : α) :
    Prog (IoAudio α E H B) (List (IoAudio α E H B)) := do
  let s ← Prog.read
  frameProcessingLoop c MIN_SAMPLE_SIZE zero s._micBuf.size

end IoAudio

/-! ## Vocabulary of the statements about CaretAEC -/

/-- The calls the session's echo controller has received (none when the
session holds no controller). -/
def CaretAEC.calls {E H B : Type} (s : CaretAEC E H B) : List EngineCall :=
  match s.echo_controller_ with
  | some ec => ec.calls
  | none => []

/-- The engine calls of `k` frames processed by `applyingEchoCancellation`, in
the order of the source text (lines 207, 217, 226 and 229), frame after frame. -/
def CaretAEC.frameCalls (k : Nat) : List EngineCall :=
  (List.replicate k
    [EngineCall.AnalyzeRender, EngineCall.AnalyzeCapture,
     EngineCall.SetAudioBufferDelay (-10), EngineCall.ProcessCapture false]).flatten

/-- The invariant of the frame loop: the guard of lines 156-157 has passed and
the channel count is not negative. -/
def CaretAEC.Running {E H B : Type} (s : CaretAEC E H B) : Prop :=
  s.notReady = false ∧ 0 ≤ s.channels_

/-- The library never fails on the operations a running session uses. -/
structure Webrtc.Reliable {α E H B : Type} (c : Webrtc α E H B) : Prop where
  copyFrom : ∀ b frames, ∃ b', c.CopyFrom b frames = .ok b'
  copyTo : ∀ b, ∃ g, c.CopyTo b = .ok g
  split : ∀ b, ∃ b', c.SplitIntoFrequencyBands b = .ok b'
  merge : ∀ b, ∃ b', c.MergeFrequencyBands b = .ok b'
  process : ∀ h b flag, ∃ r, c.Process h b flag = .ok r
  analyzeRender : ∀ e b, ∃ r, c.AnalyzeRender e b = .ok r
  analyzeCapture : ∀ e b, ∃ r, c.AnalyzeCapture e b = .ok r
  setAudioBufferDelay : ∀ e d, ∃ e', c.SetAudioBufferDelay e d = .ok e'
  processCapture : ∀ e b flag, ∃ r, c.ProcessCapture e b flag = .ok r

/-- Every normal return of `m` returns a value satisfying `Q`. -/
def Prog.Returns {σ β : Type} (m : Prog σ β) (Q : β → Prop) : Prop :=
  ∀ s s' b, m s = (s', .ok b) → Q b

/-- Every normal return of `m` from a state satisfying `P` ends with a value
and a state satisfying `Q`. -/
def Prog.Hoare {σ β : Type} (P : σ → Prop) (m : Prog σ β) (Q : β → σ → Prop) : Prop :=
  ∀ s, P s → ∀ s' b, m s = (s', .ok b) → Q b s'

/-- From a state satisfying `P`, the program `m` returns normally and
re-establishes `P`. -/
def Prog.Total {σ β : Type} (P : σ → Prop) (m : Prog σ β) : Prop :=
  ∀ s, P s → P (m s).1 ∧ ∃ b, (m s).2 = .ok b

/-- The program `m` makes the engine calls `em`, in order, when it returns
normally, and an initial part of them when it faults. -/
def CaretAEC.Emits {E H B β : Type} (m : Prog (CaretAEC E H B) β) (em : List EngineCall) :
    Prop :=
  ∀ s, ∃ t, t <+: em ∧ (m s).1.calls = s.calls ++ t ∧ ∀ b, (m s).2 = .ok b → t = em

/-- The condition of step 1 of the worker loop as the specification words it:
the playback-pending queue holds at least one unit of `sampleSize` bytes and
the playback device has free capacity for one unit. -/
def IoAudio.canPlay {α E H B : Type} (sampleSize : Nat) (s : IoAudio α E H B) : Prop :=
  sampleSize ≤ s._audioOutBuf.size ∧
    ∃ sink, s.m_audioSink = some sink ∧ (sampleSize : Int) ≤ sink.bytesFree

/-! ## Vocabulary of the statements about the worker loop -/

/-- The whole units of `n` bytes held by a queue content, oldest first. -/
def wholeUnits {α : Type} (n : Nat) (bytes : List α) : List (List α) :=
  (List.range (bytes.length / n)).map fun i => (bytes.drop (i * n)).take n

/-- The echo session of the object is set up: `initAec` has stored the engine,
the filter and both staging buffers. -/
def IoAudio.AecReady {α E H B : Type} (s : IoAudio α E H B) : Prop :=
  s.echo_controler.isSome ∧ s.hp_filter.isSome ∧ s.ref_audio.isSome ∧ s.aec_audio.isSome

/-- What step 3 of the worker loop is about: the far-end-mirror,
capture-pending and outbound-ready queues and the frame method calls made. -/
structure IoAudio.View (α : Type) where
  echo : List α
  mic : List α
  net : List α
  calls : List (AecCall α)

/-- The view of an object. -/
def IoAudio.view {α E H B : Type} (s : IoAudio α E H B) : IoAudio.View α :=
  ⟨s._echoBuff.bytes, s._micBuf.bytes, s._sendToNetBuf.bytes, s.aecCalls⟩

/-! ## Stand-ins for the WebRTC library, used at concrete inputs -/

/-- A library in which nothing fails: a buffer holds the per-channel frames it
was last loaded with, the controller and the filter are stateless, and capture
processing silences the frame (every sample becomes `0`). -/
def Webrtc.silencer : Webrtc Nat Unit Unit (List (List Nat)) where
  Create _ _ _ := .ok (some ())
  HighPassFilter _ _ := .ok ()
  AudioBuffer _ _ := .ok []
  CopyFrom _ channels := .ok channels
  CopyTo b := .ok fun ch i => (b.getD ch []).getD i 0
  SplitIntoFrequencyBands b := .ok b
  MergeFrequencyBands b := .ok b
  Process h b _ := .ok (h, b)
  AnalyzeRender e b := .ok (e, b)
  AnalyzeCapture e b := .ok (e, b)
  SetAudioBufferDelay e _ := .ok e
  ProcessCapture e b _ := .ok (e, b.map fun frame => frame.map fun _ => 0)

/-- The library `silencer` with a capture processing that throws. -/
def Webrtc.throwing : Webrtc Nat Unit Unit (List (List Nat)) :=
  { Webrtc.silencer with
    ProcessCapture := fun _ _ _ => .error (.exception "ProcessCapture failed") }

/-- The library `silencer` with a factory that yields no engine. -/
def Webrtc.engineless : Webrtc Nat Unit Unit (List (List Nat)) :=
  { Webrtc.silencer with Create := fun _ _ _ => .ok none }

/-- The session reached from the constructor by `initialize(sampleRate, 1)`
with the library `silencer`. -/
def CaretAEC.started (sampleRate : Int) : CaretAEC Unit Unit (List (List Nat)) :=
  (CaretAEC.initialize_ Webrtc.silencer sampleRate 1 CaretAEC.new).1

/-- A library in which nothing fails and no sample is altered; the echo
controller keeps, oldest first, the content of every buffer it was given to
analyse. -/
def Webrtc.recorder : Webrtc Nat (List (List (List Nat))) Unit (List (List Nat)) where
  Create _ _ _ := .ok (some [])
  HighPassFilter _ _ := .ok ()
  AudioBuffer _ _ := .ok []
  CopyFrom _ channels := .ok channels
  CopyTo b := .ok fun ch i => (b.getD ch []).getD i 0
  SplitIntoFrequencyBands b := .ok b
  MergeFrequencyBands b := .ok b
  Process h b _ := .ok (h, b)
  AnalyzeRender e b := .ok (e ++ [b], b)
  AnalyzeCapture e b := .ok (e ++ [b], b)
  SetAudioBufferDelay e _ := .ok e
  ProcessCapture e b _ := .ok (e, b)

/-- An `IoAudio` object in 8 kHz mode (frames of 80 samples, 160 bytes) after
the constructor and `initAec(8000)` with the library `recorder`. -/
def IoAudio.with8k : IoAudio Nat (List (List (List Nat))) Unit (List (List Nat)) :=
  (IoAudio.initAec Webrtc.recorder 8000 (IoAudio.new AudioMode.other 0)).1

/-- Two frames of 80 samples at 8 kHz: 160 bytes `1`, then 160 bytes `2`. -/
def IoAudio.twoFrames : List Nat := List.replicate 160 1 ++ List.replicate 160 2

/-- An `IoAudio` object on which `startAudio` has completed: both threads and
the devices are present, and every queue holds bytes. -/
def IoAudio.running : IoAudio Nat Unit Unit (List (List Nat)) :=
  { (IoAudio.new AudioMode.Audio16Khz 2 : IoAudio Nat Unit Unit (List (List Nat))) with
    m_status := .Run
    m_app := some ⟨none⟩
    m_audioSource := some ⟨0, false, false⟩
    m_audioSink := some ⟨4, false, false⟩
    m_audioInDevice := some ⟨[], []⟩
    m_audioOutDevice := some ⟨[9], []⟩
    m_qobject_thread := some ⟨3, false⟩
    _audioOutBuf := ⟨[1, 2, 3, 4, 5]⟩
    _echoBuff := ⟨[6]⟩
    _micBuf := ⟨[7, 8]⟩
    _sendToNetBuf := ⟨[10, 11]⟩ }

/-- An `IoAudio` object in 8 kHz mode with the echo session set up, two whole
units of 4 bytes and a rest in the far-end-mirror queue and two whole units
and a rest in the capture-pending queue. -/
def IoAudio.pending : IoAudio Nat (List (List (List Nat))) Unit (List (List Nat)) :=
  { IoAudio.with8k with
    _echoBuff := ⟨[1, 2, 3, 4, 5, 6, 7, 8, 9]⟩
    _micBuf := ⟨[11, 12, 13, 14, 15, 16, 17, 18, 19, 20]⟩
    _sendToNetBuf := ⟨[30]⟩ }

/-! ## Theorems -/

/-! ### Memory lemmas -/

theorem writeAt_length {α : Type} (buf : List α) (off : Nat) (xs : List α) :
    (writeAt buf off xs).length = buf.length := by
  induction buf generalizing off xs with
  | nil => simp [writeAt]
  | cons b bs ih =>
    cases off with
    | zero => cases xs <;> simp [writeAt, ih]
    | succ off => simp [writeAt, ih]

theorem writeAt_drop {α : Type} (buf : List α) (off : Nat) (xs : List α) (m : Nat)
    (h : off + xs.length ≤ m) : (writeAt buf off xs).drop m = buf.drop m := by
  induction buf generalizing off xs m with
  | nil => simp [writeAt]
  | cons b bs ih =>
    cases off with
    | zero =>
      cases xs with
      | nil => simp [writeAt]
      | cons x xs =>
        cases m with
        | zero => simp at h
        | succ m =>
          simp only [writeAt, List.drop_succ_cons]
          exact ih 0 xs m (by simp at h ⊢; omega)
    | succ off =>
      cases m with
      | zero => omega
      | succ m =>
        simp only [writeAt, List.drop_succ_cons]
        exact ih off xs m (by omega)

theorem writeAt_zero {α : Type} (buf xs : List α) (h : xs.length ≤ buf.length) :
    writeAt buf 0 xs = xs ++ buf.drop xs.length := by
  induction buf generalizing xs with
  | nil =>
    cases xs with
    | nil => simp [writeAt]
    | cons x xs => simp at h
  | cons b bs ih =>
    cases xs with
    | nil => simp [writeAt]
    | cons x xs =>
      simp only [writeAt, List.length_cons, List.drop_succ_cons, List.cons_append]
      rw [ih xs (by simpa using h)]

/-! ### Rules for programs -/

theorem Prog.returns_bind {σ β γ : Type} {m : Prog σ β} {f : β → Prog σ γ} {Q : γ → Prop}
    (h : ∀ b, Prog.Returns (f b) Q) : Prog.Returns (m >>= f) Q := by
  intro s s' c hc
  change Prog.andThen m f s = _ at hc
  unfold Prog.andThen at hc
  split at hc
  · exact h _ _ _ _ hc
  · simp at hc

theorem Prog.total_bind {σ β γ : Type} {P : σ → Prop} {m : Prog σ β} {f : β → Prog σ γ}
    (hm : Prog.Total P m) (hf : ∀ b, Prog.Total P (f b)) : Prog.Total P (m >>= f) := by
  intro s hs
  obtain ⟨h1, b, hb⟩ := hm s hs
  change P (Prog.andThen m f s).1 ∧ ∃ c, (Prog.andThen m f s).2 = .ok c
  unfold Prog.andThen
  rcases hms : m s with ⟨s1, r⟩
  rw [hms] at h1 hb
  simp only at hb h1
  subst hb
  exact hf b s1 h1

theorem CaretAEC.emits_bind {E H B β γ : Type} {m : Prog (CaretAEC E H B) β}
    {f : β → Prog (CaretAEC E H B) γ} {e1 e2 : List EngineCall}
    (hm : CaretAEC.Emits m e1) (hf : ∀ b, CaretAEC.Emits (f b) e2) :
    CaretAEC.Emits (m >>= f) (e1 ++ e2) := by
  intro s
  obtain ⟨t, ht, hcalls, hok⟩ := hm s
  change ∃ t, t <+: e1 ++ e2 ∧ (Prog.andThen m f s).1.calls = s.calls ++ t ∧
    ∀ b, (Prog.andThen m f s).2 = .ok b → t = e1 ++ e2
  unfold Prog.andThen
  rcases hms : m s with ⟨s1, r⟩
  rw [hms] at hcalls hok
  cases r with
  | error e =>
    refine ⟨t, ht.trans (List.prefix_append e1 e2), hcalls, ?_⟩
    intro b hb
    simp at hb
  | ok b =>
    have ht1 : t = e1 := hok b rfl
    subst ht1
    obtain ⟨t2, ht2, hcalls2, hok2⟩ := hf b s1
    refine ⟨t ++ t2, (List.prefix_append_right_inj t).mpr ht2, ?_, ?_⟩
    · simp only at hcalls
      simp only [hcalls2, hcalls, List.append_assoc]
    · intro c hc
      rw [hok2 c hc]

theorem Prog.Total.read_bind {σ γ : Type} {P : σ → Prop} {f : σ → Prog σ γ}
    (h : ∀ s, P s → P (f s s).1 ∧ ∃ b, (f s s).2 = .ok b) : Prog.Total P (Prog.read >>= f) :=
  fun s hs => h s hs

theorem Prog.Total.ret {σ β : Type} {P : σ → Prop} (b : β) : Prog.Total P (Prog.ret b) :=
  fun _ hs => ⟨hs, b, rfl⟩

theorem CaretAEC.Emits.silent {E H B β : Type} {m : Prog (CaretAEC E H B) β}
    (h : ∀ s, (m s).1.calls = s.calls) : CaretAEC.Emits m [] := by
  intro s
  exact ⟨[], List.prefix_refl _, by simp [h s], fun _ _ => rfl⟩

/-! ### The statements of the frame body, one by one -/

section Primitives

variable {α E H B : Type}

theorem CaretAEC.Running.parts {s : CaretAEC E H B} (h : s.Running) :
    ∃ ec h b1 b2, s.echo_controller_ = some ec ∧ s.hp_filter_ = some h ∧
      s.ref_audio_ = some b1 ∧ s.aec_audio_ = some b2 ∧ s.initialized_ = true ∧
      0 ≤ s.channels_ := by
  obtain ⟨h1, h2⟩ := h
  rcases s with ⟨_ | ec, _ | h, _ | b1, _ | b2, r, ch, i⟩ <;>
    simp [CaretAEC.notReady] at h1 ⊢
  exact ⟨h1, h2⟩

theorem CaretAEC.onBuffer_emits (which : CaretAEC.Staging) (method : B → Except Fault B) :
    CaretAEC.Emits (CaretAEC.onBuffer (E := E) (H := H) which method) [] := by
  apply CaretAEC.Emits.silent
  intro s
  unfold CaretAEC.onBuffer
  split
  · rfl
  · split
    · cases which <;> rfl
    · rfl

theorem CaretAEC.onBuffer_total (which : CaretAEC.Staging) (method : B → Except Fault B)
    (hm : ∀ b, ∃ b', method b = .ok b') :
    Prog.Total CaretAEC.Running (CaretAEC.onBuffer (E := E) (H := H) which method) := by
  intro s hs
  obtain ⟨ec, h, b1, b2, h1, h2, h3, h4, h5, h6⟩ := hs.parts
  cases which with
  | ref =>
    obtain ⟨b', hb'⟩ := hm b1
    simp [CaretAEC.onBuffer, CaretAEC.buffer, h3, hb', CaretAEC.setBuffer, CaretAEC.Running,
      CaretAEC.notReady, h1, h2, h4, h5, h6]
  | aec =>
    obtain ⟨b', hb'⟩ := hm b2
    simp [CaretAEC.onBuffer, CaretAEC.buffer, h4, hb', CaretAEC.setBuffer, CaretAEC.Running,
      CaretAEC.notReady, h1, h2, h3, h5, h6]

theorem CaretAEC.onEngine_emits (call : EngineCall) (which : CaretAEC.Staging)
    (method : E → B → Except Fault (E × B)) :
    CaretAEC.Emits (CaretAEC.onEngine (H := H) call which method) [call] := by
  intro s
  unfold CaretAEC.onEngine
  split
  · rename_i ec b hec hb
    split
    · refine ⟨[call], List.prefix_refl _, ?_, fun _ _ => rfl⟩
      cases which <;> simp [CaretAEC.calls, CaretAEC.setBuffer, hec]
    · refine ⟨[call], List.prefix_refl _, ?_, fun _ _ => rfl⟩
      simp [CaretAEC.calls, hec]
  · exact ⟨[], List.nil_prefix, by simp, fun b hb => by simp at hb⟩

theorem CaretAEC.onEngine_total (call : EngineCall) (which : CaretAEC.Staging)
    (method : E → B → Except Fault (E × B)) (hm : ∀ e b, ∃ r, method e b = .ok r) :
    Prog.Total CaretAEC.Running (CaretAEC.onEngine (H := H) call which method) := by
  intro s hs
  obtain ⟨ec, h, b1, b2, h1, h2, h3, h4, h5, h6⟩ := hs.parts
  cases which with
  | ref =>
    obtain ⟨⟨e', b'⟩, hb'⟩ := hm ec.state b1
    simp [CaretAEC.onEngine, CaretAEC.buffer, h3, hb', CaretAEC.setBuffer, CaretAEC.Running,
      CaretAEC.notReady, h1, h2, h4, h5, h6]
  | aec =>
    obtain ⟨⟨e', b'⟩, hb'⟩ := hm ec.state b2
    simp [CaretAEC.onEngine, CaretAEC.buffer, h4, hb', CaretAEC.setBuffer, CaretAEC.Running,
      CaretAEC.notReady, h1, h2, h3, h5, h6]

theorem CaretAEC.setAudioBufferDelay_emits (c : Webrtc α E H B) (delay : Int) :
    CaretAEC.Emits (CaretAEC.setAudioBufferDelay c delay)
      [EngineCall.SetAudioBufferDelay delay] := by
  intro s
  unfold CaretAEC.setAudioBufferDelay
  split
  · exact ⟨[], List.nil_prefix, by simp, fun b hb => by simp at hb⟩
  · rename_i ec hec
    refine ⟨[EngineCall.SetAudioBufferDelay delay], List.prefix_refl _, ?_, fun _ _ => rfl⟩
    simp only
    split <;> simp [CaretAEC.calls, hec]

theorem CaretAEC.setAudioBufferDelay_total (c : Webrtc α E H B) (delay : Int)
    (hc : c.Reliable) : Prog.Total CaretAEC.Running (CaretAEC.setAudioBufferDelay c delay) := by
  intro s hs
  obtain ⟨ec, h, b1, b2, h1, h2, h3, h4, h5, h6⟩ := hs.parts
  obtain ⟨e', he'⟩ := hc.setAudioBufferDelay ec.state delay
  simp [CaretAEC.setAudioBufferDelay, h1, he', CaretAEC.Running, CaretAEC.notReady, h2, h3, h4,
    h5, h6]

theorem CaretAEC.highPass_emits (c : Webrtc α E H B) (flag : Bool) :
    CaretAEC.Emits (CaretAEC.highPass c flag) [] := by
  apply CaretAEC.Emits.silent
  intro s
  unfold CaretAEC.highPass
  split
  · split <;> rfl
  · rfl

theorem CaretAEC.highPass_total (c : Webrtc α E H B) (flag : Bool) (hc : c.Reliable) :
    Prog.Total CaretAEC.Running (CaretAEC.highPass c flag) := by
  intro s hs
  obtain ⟨ec, h, b1, b2, h1, h2, h3, h4, h5, h6⟩ := hs.parts
  obtain ⟨⟨h', b'⟩, hr⟩ := hc.process h b2 flag
  simp [CaretAEC.highPass, h2, h4, hr, CaretAEC.Running, CaretAEC.notReady, h1, h3, h5, h6]

theorem CaretAEC.copyTo_emits (c : Webrtc α E H B) (channels spf off : Nat) (pb : List α) :
    CaretAEC.Emits (CaretAEC.copyTo c channels spf off pb) [] := by
  apply CaretAEC.Emits.silent
  intro s
  unfold CaretAEC.copyTo
  split
  · rfl
  · split <;> rfl

theorem CaretAEC.copyTo_total (c : Webrtc α E H B) (channels spf off : Nat) (pb : List α)
    (hc : c.Reliable) : Prog.Total CaretAEC.Running (CaretAEC.copyTo c channels spf off pb) := by
  intro s hs
  obtain ⟨ec, h, b1, b2, h1, h2, h3, h4, h5, h6⟩ := hs.parts
  obtain ⟨g, hg⟩ := hc.copyTo b2
  simp [CaretAEC.copyTo, h4, hg, hs]

end Primitives

section Frames

variable {α E H B : Type}

theorem foldl_writeAt_keeps (off : Nat) (frames : List (List α)) (spf : Nat)
    (hlen : ∀ f ∈ frames, f.length = spf) (pb : List α) :
    (frames.foldl (fun buf f => writeAt buf off f) pb).length = pb.length ∧
      ∀ m, off + spf ≤ m → (frames.foldl (fun buf f => writeAt buf off f) pb).drop m = pb.drop m := by
  induction frames generalizing pb with
  | nil => simp
  | cons f fs ih =>
    have hf : f.length = spf := hlen f (List.mem_cons_self _ _)
    obtain ⟨h1, h2⟩ := ih (fun g hg => hlen g (List.mem_cons_of_mem _ hg)) (writeAt pb off f)
    refine ⟨by simpa [writeAt_length] using h1, fun m hm => ?_⟩
    simp only [List.foldl_cons]
    rw [h2 m hm, writeAt_drop pb off f m (by omega)]

theorem CaretAEC.copyTo_returns (c : Webrtc α E H B) (channels spf off : Nat) (pb : List α) :
    Prog.Returns (CaretAEC.copyTo (E := E) (H := H) c channels spf off pb)
      (fun out => out.length = pb.length ∧ ∀ m, off + spf ≤ m → out.drop m = pb.drop m) := by
  intro s s' out h
  unfold CaretAEC.copyTo at h
  split at h
  · simp at h
  · split at h
    · rename_i g hg
      simp only [Prod.mk.injEq, Except.ok.injEq] at h
      obtain ⟨-, rfl⟩ := h
      have := foldl_writeAt_keeps off
        ((List.range channels).map fun ch => List.ofFn fun i : Fin spf => g ch i) spf
        (by
          intro f hf
          simp only [List.mem_map] at hf
          obtain ⟨ch, -, rfl⟩ := hf
          simp) pb
      simpa [List.foldl_map] using this
    · simp at h

theorem CaretAEC.channelVectors_emits (channels : Int) :
    CaretAEC.Emits (CaretAEC.channelVectors (E := E) (H := H) (B := B) channels) [] := by
  apply CaretAEC.Emits.silent
  intro s
  unfold CaretAEC.channelVectors
  split <;> rfl

theorem CaretAEC.read_emits :
    CaretAEC.Emits (Prog.read : Prog (CaretAEC E H B) (CaretAEC E H B)) [] :=
  CaretAEC.Emits.silent fun _ => rfl

/-- The engine calls of one frame. -/
theorem CaretAEC.processFrame_emits (c : Webrtc α E H B) (far near : List α)
    (spf frame : Nat) (pb : List α) :
    CaretAEC.Emits (CaretAEC.processFrame c far near spf frame pb) (CaretAEC.frameCalls 1) := by
  have h : CaretAEC.Emits (CaretAEC.processFrame c far near spf frame pb)
      ([] ++ ([] ++ ([] ++ ([] ++ ([EngineCall.AnalyzeRender] ++ ([] ++ ([] ++
        ([EngineCall.AnalyzeCapture] ++ ([] ++ ([] ++ ([EngineCall.SetAudioBufferDelay (-10)] ++
        ([EngineCall.ProcessCapture false] ++ ([] ++ [])))))))))))))  := by
    unfold CaretAEC.processFrame
    refine CaretAEC.emits_bind CaretAEC.read_emits fun s => ?_
    refine CaretAEC.emits_bind (CaretAEC.channelVectors_emits _) fun channels => ?_
    refine CaretAEC.emits_bind (CaretAEC.onBuffer_emits _ _) fun _ => ?_
    refine CaretAEC.emits_bind (CaretAEC.onBuffer_emits _ _) fun _ => ?_
    refine CaretAEC.emits_bind (CaretAEC.onEngine_emits _ _ _) fun _ => ?_
    refine CaretAEC.emits_bind (CaretAEC.onBuffer_emits _ _) fun _ => ?_
    refine CaretAEC.emits_bind (CaretAEC.onBuffer_emits _ _) fun _ => ?_
    refine CaretAEC.emits_bind (CaretAEC.onEngine_emits _ _ _) fun _ => ?_
    refine CaretAEC.emits_bind (CaretAEC.onBuffer_emits _ _) fun _ => ?_
    refine CaretAEC.emits_bind (CaretAEC.highPass_emits _ _) fun _ => ?_
    refine CaretAEC.emits_bind (CaretAEC.setAudioBufferDelay_emits _ _) fun _ => ?_
    refine CaretAEC.emits_bind (CaretAEC.onEngine_emits _ _ _) fun _ => ?_
    refine CaretAEC.emits_bind (CaretAEC.onBuffer_emits _ _) fun _ => ?_
    exact CaretAEC.copyTo_emits _ _ _ _ _
  simpa [CaretAEC.frameCalls] using h

/-- One frame keeps the size of the result buffer and leaves every sample
after the frame as it was. -/
theorem CaretAEC.processFrame_returns (c : Webrtc α E H B) (far near : List α)
    (spf frame : Nat) (pb : List α) :
    Prog.Returns (CaretAEC.processFrame (E := E) (H := H) c far near spf frame pb)
      (fun out => out.length = pb.length ∧
        ∀ m, (frame + 1) * spf ≤ m → out.drop m = pb.drop m) := by
  unfold CaretAEC.processFrame
  refine Prog.returns_bind fun s => ?_
  refine Prog.returns_bind fun channels => ?_
  iterate 11 refine Prog.returns_bind fun _ => ?_
  intro s s' out h
  obtain ⟨h1, h2⟩ := CaretAEC.copyTo_returns c _ _ _ _ s s' out h
  exact ⟨h1, fun m hm => h2 m (by rw [Nat.add_mul] at hm; omega)⟩

/-- With a reliable library one frame completes. -/
theorem CaretAEC.processFrame_total (c : Webrtc α E H B) (hc : c.Reliable) (far near : List α)
    (spf frame : Nat) (pb : List α) :
    Prog.Total CaretAEC.Running (CaretAEC.processFrame c far near spf frame pb) := by
  unfold CaretAEC.processFrame
  refine Prog.Total.read_bind fun s hs => ?_
  have hcv : CaretAEC.channelVectors (E := E) (H := H) (B := B) s.channels_
      = Prog.ret s.channels_.toNat := by
    have := hs.2
    simp only [CaretAEC.channelVectors]
    rw [if_neg (by omega)]
  rw [hcv]
  refine (Prog.total_bind (Prog.Total.ret _) fun channels => ?_) s hs
  refine Prog.total_bind (CaretAEC.onBuffer_total _ _ fun b => hc.copyFrom b _) fun _ => ?_
  refine Prog.total_bind (CaretAEC.onBuffer_total _ _ hc.split) fun _ => ?_
  refine Prog.total_bind (CaretAEC.onEngine_total _ _ _ hc.analyzeRender) fun _ => ?_
  refine Prog.total_bind (CaretAEC.onBuffer_total _ _ hc.merge) fun _ => ?_
  refine Prog.total_bind (CaretAEC.onBuffer_total _ _ fun b => hc.copyFrom b _) fun _ => ?_
  refine Prog.total_bind (CaretAEC.onEngine_total _ _ _ hc.analyzeCapture) fun _ => ?_
  refine Prog.total_bind (CaretAEC.onBuffer_total _ _ hc.split) fun _ => ?_
  refine Prog.total_bind (CaretAEC.highPass_total _ _ hc) fun _ => ?_
  refine Prog.total_bind (CaretAEC.setAudioBufferDelay_total _ _ hc) fun _ => ?_
  refine Prog.total_bind
    (CaretAEC.onEngine_total _ _ _ fun e b => hc.processCapture e b false) fun _ => ?_
  refine Prog.total_bind (CaretAEC.onBuffer_total _ _ hc.merge) fun _ => ?_
  exact CaretAEC.copyTo_total _ _ _ _ _ hc

end Frames

section Loop

variable {α E H B : Type}

theorem CaretAEC.frameCalls_succ (k : Nat) :
    CaretAEC.frameCalls (k + 1) = CaretAEC.frameCalls 1 ++ CaretAEC.frameCalls k := by
  simp [CaretAEC.frameCalls, List.replicate_succ]

/-- The engine calls of the whole frame loop. -/
theorem CaretAEC.frameLoop_emits (c : Webrtc α E H B) (far near : List α) (spf : Nat)
    (k frame : Nat) (pb : List α) :
    CaretAEC.Emits (CaretAEC.frameLoop c far near spf k frame pb) (CaretAEC.frameCalls k) := by
  induction k generalizing frame pb with
  | zero =>
    exact CaretAEC.Emits.silent fun _ => rfl
  | succ k ih =>
    rw [CaretAEC.frameCalls_succ]
    unfold CaretAEC.frameLoop
    exact CaretAEC.emits_bind (CaretAEC.processFrame_emits c far near spf frame pb)
      fun pb' => ih (frame + 1) pb'

/-- The frame loop keeps the size of the result buffer and leaves every
sample after the last frame as it was. -/
theorem CaretAEC.frameLoop_returns (c : Webrtc α E H B) (far near : List α) (spf : Nat)
    (k frame : Nat) (pb : List α) :
    Prog.Returns (CaretAEC.frameLoop (E := E) (H := H) c far near spf k frame pb)
      (fun out => out.length = pb.length ∧
        ∀ m, (frame + k) * spf ≤ m → out.drop m = pb.drop m) := by
  induction k generalizing frame pb with
  | zero =>
    intro s s' out h
    simp only [CaretAEC.frameLoop, Prog.ret, Prod.mk.injEq, Except.ok.injEq] at h
    obtain ⟨-, rfl⟩ := h
    exact ⟨rfl, fun _ _ => rfl⟩
  | succ k ih =>
    intro s s' out h
    unfold CaretAEC.frameLoop at h
    change Prog.andThen _ _ s = _ at h
    unfold Prog.andThen at h
    split at h
    · rename_i s1 pb1 h1
      obtain ⟨ha, hb⟩ := CaretAEC.processFrame_returns c far near spf frame pb s s1 pb1 h1
      obtain ⟨hc, hd⟩ := ih (frame + 1) pb1 s1 s' out h
      refine ⟨hc.trans ha, fun m hm => ?_⟩
      have e : frame + 1 + k = frame + (k + 1) := by omega
      rw [hd m (by rw [e]; exact hm)]
      refine hb m (le_trans (Nat.mul_le_mul_right spf ?_) hm)
      omega
    · simp at h

/-- With a reliable library the frame loop completes. -/
theorem CaretAEC.frameLoop_total (c : Webrtc α E H B) (hc : c.Reliable) (far near : List α)
    (spf : Nat) (k frame : Nat) (pb : List α) :
    Prog.Total CaretAEC.Running (CaretAEC.frameLoop c far near spf k frame pb) := by
  induction k generalizing frame pb with
  | zero => exact Prog.Total.ret _
  | succ k ih =>
    unfold CaretAEC.frameLoop
    exact Prog.total_bind (CaretAEC.processFrame_total c hc far near spf frame pb)
      fun pb' => ih (frame + 1) pb'

/-- The frame size of a session whose sample rate is an `int` of at least 0. -/
theorem toSizeT_rate (R : Nat) (hR : R < 2 ^ 31) : toSizeT (Int.tdiv (R : Int) 100) = R / 100 := by
  unfold toSizeT
  have h1 : Int.tdiv (R : Int) 100 = ((R / 100 : Nat) : Int) := by
    rw [Int.tdiv_eq_ediv (Int.ofNat_nonneg R) (by norm_num)]
    norm_cast
  rw [h1]
  have h3 : R / 100 < 2 ^ 31 := lt_of_le_of_lt (Nat.div_le_self R 100) hR
  have h2 : ((R / 100 : Nat) : Int) % (2 : Int) ^ 64 = ((R / 100 : Nat) : Int) := by
    apply Int.emod_eq_of_lt
    · exact Int.ofNat_nonneg _
    · norm_num at h3 ⊢
      omega
  rw [h2]
  exact Int.toNat_natCast _

end Loop

/-! ### CaretAEC: the claims -/

section Claims

variable {α E H B : Type}

/-- A session that passes the guards runs the frame loop over the near-end
buffer. -/
theorem CaretAEC.applyingEchoCancellation_ready (c : Webrtc α E H B) (s : CaretAEC E H B)
    (far near : List α) (hready : s.notReady = false) (hlen : far.length = near.length)
    (hF : toSizeT (Int.tdiv s.sample_rate_ 100) ≠ 0) :
    CaretAEC.applyingEchoCancellation c far near s =
      CaretAEC.frameLoop c far near (toSizeT (Int.tdiv s.sample_rate_ 100))
        (near.length / toSizeT (Int.tdiv s.sample_rate_ 100)) 0 near s := by
  unfold CaretAEC.applyingEchoCancellation
  change (if s.notReady = true then _ else _ : Prog (CaretAEC E H B) (List α)) s = _
  rw [if_neg (by simp [hready]), if_neg (by simp [hlen]), if_neg hF]

/-- A session that fails the guard of lines 156-157 hands the near-end buffer
back. -/
theorem CaretAEC.applyingEchoCancellation_notReady (c : Webrtc α E H B) (s : CaretAEC E H B)
    (far near : List α) (hn : s.notReady = true) :
    CaretAEC.applyingEchoCancellation c far near s = (s, .ok near) := by
  unfold CaretAEC.applyingEchoCancellation
  change (if s.notReady = true then _ else _ : Prog (CaretAEC E H B) (List α)) s = _
  rw [if_pos hn]; rfl

/-- Buffers of different lengths: the near-end buffer is handed back. -/
theorem CaretAEC.applyingEchoCancellation_mismatch (c : Webrtc α E H B) (s : CaretAEC E H B)
    (far near : List α) (hlen : far.length ≠ near.length) :
    CaretAEC.applyingEchoCancellation c far near s = (s, .ok near) := by
  by_cases hn : s.notReady = true
  · exact CaretAEC.applyingEchoCancellation_notReady c s far near hn
  · unfold CaretAEC.applyingEchoCancellation
    change (if s.notReady = true then _ else _ : Prog (CaretAEC E H B) (List α)) s = _
    rw [if_neg hn, if_pos hlen]; rfl

/-- C1 (passthrough law): when the session is not initialized, or its engine,
filter or one of its staging buffers is absent, or the far-end and near-end
buffers differ in length, `applyingEchoCancellation` returns the near-end
buffer itself and leaves the session as it was. -/
theorem CaretAEC.applyingEchoCancellation_passthrough (c : Webrtc α E H B)
    (s : CaretAEC E H B) (far near : List α)
    (h : s.initialized_ = false ∨ s.echo_controller_ = none ∨ s.hp_filter_ = none ∨
      s.ref_audio_ = none ∨ s.aec_audio_ = none ∨ far.length ≠ near.length) :
    CaretAEC.applyingEchoCancellation c far near s = (s, .ok near) := by
  rcases h with h | h | h | h | h | h
  all_goals first
    | exact CaretAEC.applyingEchoCancellation_mismatch c s far near h
    | exact CaretAEC.applyingEchoCancellation_notReady c s far near
        (by simp [CaretAEC.notReady, h])

/-- Witness of C1: the scenario of the specification, a far-end buffer of 100
samples against a near-end buffer of 200 samples on a running session. -/
theorem CaretAEC.applyingEchoCancellation_passthrough_witness :
    (List.replicate 100 0).length ≠ (List.range 200).length ∧
    CaretAEC.applyingEchoCancellation Webrtc.silencer (List.replicate 100 0) (List.range 200)
      (CaretAEC.started 16000) = (CaretAEC.started 16000, .ok (List.range 200)) :=
  ⟨by simp, CaretAEC.applyingEchoCancellation_passthrough Webrtc.silencer
    (CaretAEC.started 16000) (List.replicate 100 0) (List.range 200)
    (Or.inr (Or.inr (Or.inr (Or.inr (Or.inr (by simp))))))⟩

set_option maxRecDepth 100000 in
/-- C2 as stated fails: at 16 kHz (frames of 160 samples) a buffer of 200
samples comes back with 200 samples, not 160; the 40 samples after the last
whole frame are the near-end samples, unprocessed. -/
theorem CaretAEC.frame_count_conservation_fails :
    ∃ out, (CaretAEC.applyingEchoCancellation Webrtc.silencer (List.replicate 200 5)
        (List.replicate 200 7) (CaretAEC.started 16000)).2 = .ok out ∧
      out = List.replicate 160 0 ++ List.replicate 40 7 ∧
      out.length ≠ (List.replicate 200 7).length / (16000 / 100) * (16000 / 100) :=
  ⟨List.replicate 160 0 ++ List.replicate 40 7, by decide, rfl, by decide⟩

/-- C3 (fault to passthrough at the bridge): with non-null buffers holding at
least `bufferSize > 0` samples, when `applyingEchoCancellation` fails with an
exception, `CaretAEC_ProcessBuffers` does not fail: the first `bufferSize`
cells of the output memory become the `bufferSize` samples of `micBuffer`, in
order, and the call returns `bufferSize`. -/
theorem CaretAEC_ProcessBuffers_fault_passthrough (c : Webrtc α E H B) (s s' : CaretAEC E H B)
    (systemMem micMem outputMem : List α) (bufferSize : Nat) (what : String)
    (hsize : 0 < bufferSize) (hsys : bufferSize ≤ systemMem.length)
    (hmic : bufferSize ≤ micMem.length) (hout : bufferSize ≤ outputMem.length)
    (hthrow : CaretAEC.applyingEchoCancellation c (systemMem.take bufferSize)
      (micMem.take bufferSize) s = (s', .error (.exception what))) :
    CaretAEC_ProcessBuffers c (some systemMem) (some micMem) (some outputMem) bufferSize s =
      (s', .ok (some (micMem.take bufferSize ++ outputMem.drop bufferSize), bufferSize)) := by
  have hw : writeAt outputMem 0 (micMem.take bufferSize) =
      micMem.take bufferSize ++ outputMem.drop bufferSize := by
    have hl : (micMem.take bufferSize).length = bufferSize := by
      rw [List.length_take]; exact Nat.min_eq_left hmic
    have := writeAt_zero outputMem (micMem.take bufferSize) (by rw [hl]; exact hout)
    rwa [hl] at this
  have hl : (List.take bufferSize micMem).length ≤ outputMem.length := by
    rw [List.length_take]; exact le_trans (Nat.min_le_left _ _) hout
  simp only [CaretAEC_ProcessBuffers, Nat.pos_iff_ne_zero.mp hsize, if_false, Prog.tryCatch,
    bind, Prog.andThen, readN, writeN, hsys, hmic, hl, if_true, Prog.ret, hthrow, hw]

set_option maxRecDepth 100000 in
/-- Witness of C3: 16 kHz, one frame of 160 samples, and a library whose
capture processing throws. -/
theorem CaretAEC_ProcessBuffers_fault_passthrough_witness :
    CaretAEC_ProcessBuffers Webrtc.throwing (some (List.replicate 160 5))
        (some (List.replicate 160 7)) (some (List.replicate 161 9)) 160
        (CaretAEC.started 16000) =
      ((CaretAEC.applyingEchoCancellation Webrtc.throwing
          ((List.replicate 160 5).take 160) ((List.replicate 160 7).take 160)
          (CaretAEC.started 16000)).1,
        .ok (some ((List.replicate 160 7).take 160 ++ (List.replicate 161 9).drop 160), 160)) :=
  CaretAEC_ProcessBuffers_fault_passthrough Webrtc.throwing (CaretAEC.started 16000) _
    (List.replicate 160 5) (List.replicate 160 7) (List.replicate 161 9) 160
    "ProcessCapture failed" (by decide) (by decide) (by decide) (by decide)
    (Prod.ext rfl (by decide))

/-- C4 as stated fails: with a factory that yields no engine, `initialize` and
the bridge `CaretAEC_Initialize` return `true` and the session reports
initialized, with no engine. -/
theorem CaretAEC.initialize_without_engine :
    CaretAEC.initialize_ Webrtc.engineless 16000 1 CaretAEC.new =
        (⟨none, some (), some [], some [], 16000, 1, true⟩, .ok true) ∧
      CaretAEC_Initialize Webrtc.engineless 16000 1 CaretAEC.new =
        (⟨none, some (), some [], some [], 16000, 1, true⟩, .ok true) := by
  decide

/-- The session is not initialized at any point where `initialize` fails, and
whenever `initialize` returns it returns `true` with the session initialized
and holding the engine the factory yielded. -/
theorem CaretAEC.initialize_cases (c : Webrtc α E H B) (sampleRate channels : Int)
    (s : CaretAEC E H B) :
    (∃ f, (CaretAEC.initialize_ c sampleRate channels s).2 = .error f ∧
        (CaretAEC.initialize_ c sampleRate channels s).1.initialized_ = false) ∨
      (∃ engine, c.Create sampleRate channels channels = .ok engine ∧
        (CaretAEC.initialize_ c sampleRate channels s).2 = .ok true ∧
        (CaretAEC.initialize_ c sampleRate channels s).1.initialized_ = true ∧
        (CaretAEC.initialize_ c sampleRate channels s).1.echo_controller_ =
          engine.map fun e => ⟨e, []⟩) := by
  have hsh : (if s.initialized_ = true then s.shutdown else s).initialized_ = false := by
    unfold CaretAEC.shutdown
    cases h : s.initialized_ <;> simp [h]
  simp only [CaretAEC.initialize_, bind, Prog.andThen, Prog.modify, Prog.call, Prog.ret]
  rcases c.Create sampleRate channels channels with f | engine
  · exact Or.inl ⟨f, rfl, hsh⟩
  · rcases c.HighPassFilter sampleRate channels with f | filter
    · exact Or.inl ⟨f, rfl, hsh⟩
    · rcases c.AudioBuffer sampleRate channels with f | buf
      · exact Or.inl ⟨f, rfl, hsh⟩
      · exact Or.inr ⟨engine, rfl, rfl, rfl, rfl⟩

/-- C4 as amended: `initialize` never returns `false`: whenever it returns, it
returns `true`, the session reports initialized and the bridge returns `true`
too, also when the factory yielded no engine; in that case the session holds
no engine and `applyingEchoCancellation` passes every near-end buffer through.
When `initialize` fails with an exception the bridge returns `false` and the
session is left not initialized. -/
theorem CaretAEC.initialize_outcome (c : Webrtc α E H B) (sampleRate channels : Int)
    (s : CaretAEC E H B) :
    (∀ b, (CaretAEC.initialize_ c sampleRate channels s).2 = .ok b →
      b = true ∧ (CaretAEC.initialize_ c sampleRate channels s).1.initialized_ = true ∧
      CaretAEC_Initialize c sampleRate channels s =
        ((CaretAEC.initialize_ c sampleRate channels s).1, .ok true)) ∧
    (∀ b, c.Create sampleRate channels channels = .ok none →
      (CaretAEC.initialize_ c sampleRate channels s).2 = .ok b →
      (CaretAEC.initialize_ c sampleRate channels s).1.echo_controller_ = none ∧
      ∀ far near : List α,
        CaretAEC.applyingEchoCancellation c far near
            (CaretAEC.initialize_ c sampleRate channels s).1 =
          ((CaretAEC.initialize_ c sampleRate channels s).1, .ok near)) ∧
    (∀ what, (CaretAEC.initialize_ c sampleRate channels s).2 = .error (.exception what) →
      (CaretAEC.initialize_ c sampleRate channels s).1.initialized_ = false ∧
      CaretAEC_Initialize c sampleRate channels s =
        ((CaretAEC.initialize_ c sampleRate channels s).1, .ok false)) := by
  have hcases := CaretAEC.initialize_cases c sampleRate channels s
  have hbridge : CaretAEC_Initialize c sampleRate channels s =
      Prog.tryCatch (CaretAEC.initialize_ c sampleRate channels) (fun _ => Prog.ret false) s :=
    rfl
  rw [hbridge]
  unfold Prog.tryCatch
  rcases hr : CaretAEC.initialize_ c sampleRate channels s with ⟨s1, r⟩
  rw [hr] at hcases
  simp only at hcases ⊢
  rcases hcases with ⟨f, hf, hi⟩ | ⟨engine, he, hok, hi, hec⟩
  · subst hf
    refine ⟨fun b hb => by simp at hb, fun b _ hb => by simp at hb, fun what hw => ?_⟩
    simp only [Except.error.injEq] at hw
    subst hw
    exact ⟨hi, rfl⟩
  · subst hok
    refine ⟨fun b hb => ?_, fun b hnone _ => ?_, fun what hw => by simp at hw⟩
    · simp only [Except.ok.injEq] at hb
      exact ⟨hb.symm, hi, rfl⟩
    · rw [hnone] at he
      simp only [Except.ok.injEq] at he
      subst he
      refine ⟨hec, fun far near => ?_⟩
      exact CaretAEC.applyingEchoCancellation_notReady c s1 far near
        (by simp [CaretAEC.notReady, hec])

/-- C5 (shutdown is idempotent and total): after `shutdown` the session
reports not initialized; a second `shutdown` changes nothing; on the session
the constructor builds `shutdown` changes nothing; and the bridge
`CaretAEC_Shutdown` completes with the state `shutdown` gives. -/
theorem CaretAEC.shutdown_idempotent (s : CaretAEC E H B) :
    s.shutdown.initialized_ = false ∧ s.shutdown.shutdown = s.shutdown ∧
      (CaretAEC.new : CaretAEC E H B).shutdown = CaretAEC.new ∧
      CaretAEC_Shutdown s = (s.shutdown, .ok ()) := by
  refine ⟨?_, ?_, rfl, rfl⟩
  · unfold CaretAEC.shutdown
    cases h : s.initialized_ <;> simp [h]
  · unfold CaretAEC.shutdown
    cases h : s.initialized_ <;> simp [h]

set_option maxRecDepth 100000 in
/-- C6 as stated fails: in the one frame of this run (16 kHz, 160 samples) the
engine receives `AnalyzeCapture` before `SetAudioBufferDelay`, not after it. -/
theorem CaretAEC.delay_set_follows_capture_analysis :
    (CaretAEC.applyingEchoCancellation Webrtc.silencer (List.replicate 160 5)
        (List.replicate 160 7) (CaretAEC.started 16000)).1.calls =
      [EngineCall.AnalyzeRender, EngineCall.AnalyzeCapture,
        EngineCall.SetAudioBufferDelay (-10), EngineCall.ProcessCapture false] ∧
    (CaretAEC.applyingEchoCancellation Webrtc.silencer (List.replicate 160 5)
        (List.replicate 160 7) (CaretAEC.started 16000)).1.calls ≠
      [EngineCall.AnalyzeRender, EngineCall.SetAudioBufferDelay (-10),
        EngineCall.AnalyzeCapture, EngineCall.ProcessCapture false] := by
  decide

/-- C6 as amended: on a session that passes the guards, for equal-length
buffers, the engine calls of `applyingEchoCancellation` are, frame after frame,
`AnalyzeRender`, `AnalyzeCapture`, `SetAudioBufferDelay(-10)`,
`ProcessCapture`: the calls made are an initial part of that sequence for
`n / F` frames, and the whole of it when the call returns. -/
theorem CaretAEC.applyingEchoCancellation_call_order (c : Webrtc α E H B)
    (s : CaretAEC E H B) (far near : List α) (R : Nat) (hready : s.notReady = false)
    (hR : s.sample_rate_ = R) (hint : R < 2 ^ 31) (hF : 1 ≤ R / 100)
    (hlen : far.length = near.length) :
    ∃ t, t <+: CaretAEC.frameCalls (near.length / (R / 100)) ∧
      (CaretAEC.applyingEchoCancellation c far near s).1.calls = s.calls ++ t ∧
      ∀ out, (CaretAEC.applyingEchoCancellation c far near s).2 = .ok out →
        t = CaretAEC.frameCalls (near.length / (R / 100)) := by
  have hspf : toSizeT (Int.tdiv s.sample_rate_ 100) = R / 100 := by
    rw [hR]; exact toSizeT_rate R hint
  have hrun := CaretAEC.applyingEchoCancellation_ready c s far near hready hlen
    (by rw [hspf]; omega)
  rw [hspf] at hrun
  rw [hrun]
  exact CaretAEC.frameLoop_emits c far near (R / 100) (near.length / (R / 100)) 0 near s

/-- Witness of C6 as amended: 16 kHz, buffers of 320 samples, two frames. -/
theorem CaretAEC.applyingEchoCancellation_call_order_witness :
    ∃ t, t <+: CaretAEC.frameCalls ((List.replicate 320 7).length / (16000 / 100)) ∧
      (CaretAEC.applyingEchoCancellation Webrtc.silencer (List.replicate 320 5)
        (List.replicate 320 7) (CaretAEC.started 16000)).1.calls =
          (CaretAEC.started 16000).calls ++ t ∧
      ∀ out, (CaretAEC.applyingEchoCancellation Webrtc.silencer (List.replicate 320 5)
          (List.replicate 320 7) (CaretAEC.started 16000)).2 = .ok out →
        t = CaretAEC.frameCalls ((List.replicate 320 7).length / (16000 / 100)) :=
  CaretAEC.applyingEchoCancellation_call_order Webrtc.silencer (CaretAEC.started 16000)
    (List.replicate 320 5) (List.replicate 320 7) 16000 (by decide) (by decide) (by norm_num)
    (by norm_num) (by rw [List.length_replicate, List.length_replicate])

end Claims

/-! ### IoAudio: the claims -/

section IoAudioClaims

variable {α E H B : Type}

/-- Without a device-owning thread the wait loop of the destructor ends in
a null dereference, however long the worker thread keeps running. -/
theorem IoAudio.waitThreads_null (polls : Nat) (s : IoAudio α E H B) (api : QThread)
    (hapi : s.m_api_thread = some api) (hq : s.m_qobject_thread = none)
    (hpolls : api.running ≤ polls) :
    (IoAudio.waitThreads polls s).2 = .error (.undefined "null pointer m_qobject_thread") := by
  induction polls generalizing s api with
  | zero =>
    have h0 : ¬ 0 < api.running := by omega
    simp [IoAudio.waitThreads, IoAudio.threadsRunning, bind, Prog.andThen, Prog.read, hapi, hq,
      IoAudio.deref, Prog.ret, Prog.raise, h0]
  | succ polls ih =>
    by_cases h0 : 0 < api.running
    · have hstep : IoAudio.waitThreads (polls + 1) s = IoAudio.waitThreads polls s.msleep := by
        simp [IoAudio.waitThreads, IoAudio.threadsRunning, bind, Prog.andThen, Prog.read, hapi,
          IoAudio.deref, Prog.ret, h0, Prog.modify]
      rw [hstep]
      exact ih s.msleep { api with running := api.running - 1 }
        (by simp [IoAudio.msleep, hapi]) (by simp [IoAudio.msleep, hq])
        (by simp only; omega)
    · simp [IoAudio.waitThreads, IoAudio.threadsRunning, bind, Prog.andThen, Prog.read, hapi, hq,
        IoAudio.deref, Prog.ret, Prog.raise, h0]

/-- C8 (teardown is safe before start) fails: on the object the constructor
builds, with `startAudio` never called, the destructor dereferences the null
`m_qobject_thread` in the loop condition of line 84, whatever the mode and
however long the worker thread takes to finish. -/
theorem IoAudio.destructor_before_start (m_mode : AudioMode) (running : Nat) :
    (IoAudio.destructor (IoAudio.new m_mode running : IoAudio α E H B)).2 =
      .error (.undefined "null pointer m_qobject_thread") := by
  simp only [IoAudio.destructor, bind, Prog.andThen, Prog.modify, Prog.read]
  split
  · rename_i s' b heq
    exact absurd
      ((IoAudio.waitThreads_null _ _ ⟨running, false⟩ rfl rfl (le_refl running)).symm.trans
        (congrArg Prod.snd heq))
      (by simp)
  · rename_i s' e heq
    exact (congrArg Prod.snd heq).symm.trans
      (IoAudio.waitThreads_null _ _ ⟨running, false⟩ rfl rfl (le_refl running))

set_option maxRecDepth 100000 in
/-- C9 (per-frame chunking) fails for two frames: at 8 kHz, `aecProcess` on 160
samples whose first frame is all `1` and whose second frame is all `2` hands
the first frame to the engine twice and stores both results at the start of
`out`, whose second half keeps its old bytes; `aecPutFarEndFrame` hands the
first frame to the engine twice as well. -/
theorem IoAudio.aecProcess_reloads_first_frame :
    (IoAudio.aecProcess Webrtc.recorder IoAudio.twoFrames (List.replicate 320 0) 160
        IoAudio.with8k).2 = .ok (List.replicate 160 1 ++ List.replicate 160 0) ∧
      ((IoAudio.aecProcess Webrtc.recorder IoAudio.twoFrames (List.replicate 320 0) 160
        IoAudio.with8k).1.echo_controler.map fun ec => ec.state) =
        some [[List.replicate 160 1], [List.replicate 160 1]] ∧
      ((IoAudio.aecPutFarEndFrame Webrtc.recorder IoAudio.twoFrames 160
        IoAudio.with8k).1.echo_controler.map fun ec => ec.state) =
        some [[List.replicate 160 1], [List.replicate 160 1]] := by
  decide

/-- C10 (playback mirroring, step 1 of the worker loop, with `pop` as the
specification words it): with a playback device, when the playback-pending
queue holds at least one unit and the device has room for one, the oldest
unit leaves the queue and the very same bytes are appended to the device
and to the far-end-mirror queue; otherwise nothing is written, nothing is
mirrored and the object is unchanged. -/
theorem IoAudio.playbackDrain_mirrors (sampleSize : Nat) (s : IoAudio α E H B)
    (device : QIODevice α) (hdev : s.m_audioOutDevice = some device) :
    (IoAudio.canPlay sampleSize s →
      IoAudio.playbackDrain sampleSize s =
        ({ s with
            _audioOutBuf := ⟨s._audioOutBuf.bytes.drop sampleSize⟩
            m_audioOutDevice := some
              { device with written := device.written ++ s._audioOutBuf.bytes.take sampleSize }
            _echoBuff := ⟨s._echoBuff.bytes ++ s._audioOutBuf.bytes.take sampleSize⟩ },
          .ok ())) ∧
    (¬ IoAudio.canPlay sampleSize s → IoAudio.playbackDrain sampleSize s = (s, .ok ())) := by
  constructor
  · rintro ⟨hsize, sink, hsink, hfree⟩
    by_cases hempty : s._audioOutBuf.bytes = []
    · have h0 : sampleSize = 0 := by simpa [RingBuffer.size, hempty] using hsize
      subst h0
      simp [IoAudio.playbackDrain, bind, Prog.andThen, Prog.read, RingBuffer.isEmpty, hempty,
        Prog.ret]
      rcases s with ⟨_, _, _, _, _, _, _, _, _, ⟨_⟩, ⟨_⟩, _, _, _, _, _, _, _, _, _⟩
      simp_all
    · have hlt : ¬ s._audioOutBuf.bytes.length < sampleSize := not_lt.mpr hsize
      simp [IoAudio.playbackDrain, bind, Prog.andThen, Prog.read, RingBuffer.isEmpty, hempty,
        hsink, hfree, RingBuffer.pop, Prog.modify, hdev, IoAudio.deref, Prog.ret,
        RingBuffer.putData, hlt]
  · intro hno
    by_cases hempty : s._audioOutBuf.bytes = []
    · simp [IoAudio.playbackDrain, bind, Prog.andThen, Prog.read, RingBuffer.isEmpty, hempty,
        Prog.ret]
    · rcases hsink : s.m_audioSink with _ | sink
      · simp [IoAudio.playbackDrain, bind, Prog.andThen, Prog.read, RingBuffer.isEmpty, hempty,
          hsink, Prog.ret]
      · by_cases hfree : (sampleSize : Int) ≤ sink.bytesFree
        · have hlt : s._audioOutBuf.bytes.length < sampleSize := by
            by_contra hge
            exact hno ⟨not_lt.mp hge, sink, hsink, hfree⟩
          simp [IoAudio.playbackDrain, bind, Prog.andThen, Prog.read, RingBuffer.isEmpty,
            hempty, hsink, hfree, RingBuffer.pop, Prog.modify, hdev, IoAudio.deref, Prog.ret,
            RingBuffer.putData, hlt]
          rcases s with ⟨_, _, _, _, _, _, _, _, _, ⟨_⟩, ⟨_⟩, _, _, _, _, _, _, _, _, _⟩
          simp_all
        · simp [IoAudio.playbackDrain, bind, Prog.andThen, Prog.read, RingBuffer.isEmpty,
            hempty, hsink, hfree, Prog.ret]

/-- Witness of C10: a unit of 2 bytes with 5 bytes pending and 4 bytes free:
the bytes `1, 2` leave the queue, reach the device and are mirrored. -/
theorem IoAudio.playbackDrain_mirrors_witness :
    IoAudio.canPlay 2 IoAudio.running ∧
      IoAudio.playbackDrain 2 IoAudio.running =
        ({ IoAudio.running with
            _audioOutBuf := ⟨[3, 4, 5]⟩
            m_audioOutDevice := some ⟨[9, 1, 2], []⟩
            _echoBuff := ⟨[6, 1, 2]⟩ },
          .ok ()) :=
  have hcan : IoAudio.canPlay 2 IoAudio.running :=
    ⟨by decide, ⟨4, false, false⟩, rfl, by decide⟩
  ⟨hcan, (IoAudio.playbackDrain_mirrors 2 IoAudio.running ⟨[9], []⟩ rfl).1 hcan⟩

end IoAudioClaims

/-! ### IoAudio: the frame methods with a reliable library -/

section FrameMethods

variable {α E H B : Type}

theorem IoAudio.AecReady.handles {t : IoAudio α E H B} (ht : t.AecReady) :
    ∃ ec h b1 b2, t.echo_controler = some ec ∧ t.hp_filter = some h ∧
      t.ref_audio = some b1 ∧ t.aec_audio = some b2 := by
  obtain ⟨h1, h2, h3, h4⟩ := ht
  rcases t with ⟨_, _, _, _, _, _, _, _, _, _, _, _, _, _ | ec, _ | h, _ | b1, _ | b2, _, _, _⟩ <;>
    simp at h1 h2 h3 h4 ⊢

/-- The frame size both frame methods compute, for a sample count that is not
negative: the smaller of the count and one hundredth of the sample rate. -/
theorem IoAudio.samples_eq (t : IoAudio α E H B) (n : Nat) :
    toSizeT (min ((n : Nat) : Int) (Int.tdiv t.sampleRate 100)) =
      min n (if t.m_mode = AudioMode.Audio16Khz then 160 else 80) := by
  have key : ∀ r : Nat, r ≤ 160 → toSizeT (min ((n : Nat) : Int) ((r : Nat) : Int)) = min n r := by
    intro r hr
    have h1 : min ((n : Nat) : Int) ((r : Nat) : Int) = ((min n r : Nat) : Int) := by
      push_cast; rfl
    rw [h1]
    unfold toSizeT
    have h2 : ((min n r : Nat) : Int) % (2 : Int) ^ 64 = ((min n r : Nat) : Int) := by
      apply Int.emod_eq_of_lt (Int.ofNat_nonneg _)
      have : min n r ≤ 160 := le_trans (Nat.min_le_right n r) hr
      norm_num
      omega
    rw [h2]
    exact Int.toNat_natCast _
  unfold IoAudio.sampleRate
  split
  · have h160 : Int.tdiv (16000 : Int) 100 = ((160 : Nat) : Int) := by decide
    rw [h160]; exact key 160 (le_refl _)
  · have h80 : Int.tdiv (8000 : Int) 100 = ((80 : Nat) : Int) := by decide
    rw [h80]; exact key 80 (by norm_num)

/-- With a reliable library and the echo session set up, the far-end loop
completes and leaves the queues and the call history as they were. -/
theorem IoAudio.putFarEndLoop_spec (c : Webrtc α E H B) (hc : c.Reliable) (input : List α)
    (samples : Nat) (hin : 2 * samples ≤ input.length) (n : Nat) (t : IoAudio α E H B)
    (ht : t.AecReady) :
    ∃ t', IoAudio.putFarEndLoop c input samples n t = (t', .ok ()) ∧ t'.AecReady ∧
      t'.view = t.view := by
  choose fcopy hcopy using hc.copyFrom
  choose fproc hproc using hc.process
  choose frender hrender using hc.analyzeRender
  induction n generalizing t with
  | zero => exact ⟨t, rfl, ht, rfl⟩
  | succ n ih =>
    obtain ⟨ec, h, b1, b2, hec, hh, hb1, hb2⟩ := ht.handles
    simp only [IoAudio.putFarEndLoop, bind, Prog.andThen, IoAudio.updateFrame, readN, if_pos hin,
      Prog.ret, Prog.modify, IoAudio.setFrame, IoAudio.copyFromFrame, Prog.read, IoAudio.deref,
      IoAudio.buffer, IoAudio.frame, hb1, hcopy, Prog.call, IoAudio.setBuffer, IoAudio.highPass,
      hh, hproc, IoAudio.onEngine, hec, hrender]
    refine (ih _ ?_).imp fun t' ht' => ⟨ht'.1, ht'.2.1, ht'.2.2.trans rfl⟩
    simp [IoAudio.AecReady, hb2]

/-- With a reliable library and the echo session set up, the near-end loop
completes, leaves the queues and the call history as they were and keeps the
size of `out`. -/
theorem IoAudio.processLoop_spec (c : Webrtc α E H B) (hc : c.Reliable) (input : List α)
    (samples : Nat) (hin : 2 * samples ≤ input.length) (n : Nat) (out : List α)
    (hout : 2 * samples ≤ out.length) (t : IoAudio α E H B) (ht : t.AecReady) :
    ∃ t' out', IoAudio.processLoop c input samples n out t = (t', .ok out') ∧ t'.AecReady ∧
      t'.view = t.view ∧ out'.length = out.length := by
  choose fcopy hcopy using hc.copyFrom
  choose fproc hproc using hc.process
  choose fcapture hcapture using hc.analyzeCapture
  choose fprocess hprocess using hc.processCapture
  choose fto hto using hc.copyTo
  induction n generalizing t out with
  | zero => exact ⟨t, out, rfl, ht, rfl, rfl⟩
  | succ n ih =>
    obtain ⟨ec, h, b1, b2, hec, hh, hb1, hb2⟩ := ht.handles
    have hlen : samples * 2 ≤ 2 * samples := by omega
    have hw : min (samples * 2) (2 * samples) ≤ out.length := by omega
    simp only [IoAudio.processLoop, bind, Prog.andThen, IoAudio.updateFrame, readN, if_pos hin,
      Prog.ret, Prog.modify, IoAudio.setFrame, IoAudio.copyFromFrame, Prog.read, IoAudio.deref,
      IoAudio.buffer, IoAudio.frame, hb2, hcopy, Prog.call, IoAudio.setBuffer, IoAudio.highPass,
      hh, hproc, IoAudio.onEngine, hec, hcapture, hprocess, IoAudio.copyToFrame, hto,
      List.length_ofFn, if_pos hlen, writeN, List.length_take, if_pos hw]
    refine (ih _ ?_ _ ?_).elim fun t' h => h.elim fun out' h =>
      ⟨t', out', h.1, h.2.1, h.2.2.1.trans rfl, h.2.2.2.trans (writeAt_length _ _ _)⟩
    · rw [writeAt_length]; exact hout
    · simp [IoAudio.AecReady, hb1]

/-- With a reliable library and the echo session set up, `aecPutFarEndFrame`
on a buffer that holds the samples it is told of completes, and all it changes
in the queues and the call history is the record of the call itself. -/
theorem IoAudio.aecPutFarEndFrame_spec (c : Webrtc α E H B) (hc : c.Reliable) (input : List α)
    (n : Nat) (hin : 2 * n ≤ input.length) (t : IoAudio α E H B) (ht : t.AecReady) :
    ∃ t', IoAudio.aecPutFarEndFrame c input ((n : Nat) : Int) t = (t', .ok ()) ∧ t'.AecReady ∧
      t'.view = { t.view with
        calls := t.view.calls ++ [AecCall.aecPutFarEndFrame input ((n : Nat) : Int)] } := by
  have hs := IoAudio.samples_eq
    { t with aecCalls := t.aecCalls ++ [AecCall.aecPutFarEndFrame input ((n : Nat) : Int)] } n
  have hle : min n (if t.m_mode = AudioMode.Audio16Khz then 160 else 80) ≤ n := Nat.min_le_left _ _
  have hready : IoAudio.AecReady
      { t with aecCalls := t.aecCalls ++ [AecCall.aecPutFarEndFrame input ((n : Nat) : Int)] } :=
    ht
  simp only [IoAudio.aecPutFarEndFrame, bind, Prog.andThen, Prog.modify, Prog.read]
  rw [hs]
  generalize min n (if t.m_mode = AudioMode.Audio16Khz then 160 else 80) = samples at hle ⊢
  by_cases h0 : samples = 0
  · rw [if_pos h0]
    exact ⟨_, rfl, hready, rfl⟩
  · rw [if_neg h0]
    obtain ⟨t', h1, h2, h3⟩ := IoAudio.putFarEndLoop_spec c hc input samples (by omega)
      (toSizeT ((n : Nat) : Int) / samples) _ hready
    exact ⟨t', h1, h2, h3.trans rfl⟩

/-- With a reliable library and the echo session set up, `aecProcess` on
buffers that hold the samples it is told of completes, keeps the size of `out`,
and all it changes in the queues and the call history is the record of the
call itself. -/
theorem IoAudio.aecProcess_spec (c : Webrtc α E H B) (hc : c.Reliable) (input out : List α)
    (n : Nat) (hin : 2 * n ≤ input.length) (hout : 2 * n ≤ out.length) (t : IoAudio α E H B)
    (ht : t.AecReady) :
    ∃ t' out', IoAudio.aecProcess c input out ((n : Nat) : Int) t = (t', .ok out') ∧
      t'.AecReady ∧
      t'.view = { t.view with
        calls := t.view.calls ++ [AecCall.aecProcess input ((n : Nat) : Int)] } ∧
      out'.length = out.length := by
  have hs := IoAudio.samples_eq
    { t with aecCalls := t.aecCalls ++ [AecCall.aecProcess input ((n : Nat) : Int)] } n
  have hle : min n (if t.m_mode = AudioMode.Audio16Khz then 160 else 80) ≤ n := Nat.min_le_left _ _
  have hready : IoAudio.AecReady
      { t with aecCalls := t.aecCalls ++ [AecCall.aecProcess input ((n : Nat) : Int)] } := ht
  simp only [IoAudio.aecProcess, bind, Prog.andThen, Prog.modify, Prog.read]
  rw [hs]
  generalize min n (if t.m_mode = AudioMode.Audio16Khz then 160 else 80) = samples at hle ⊢
  by_cases h0 : samples = 0
  · rw [if_pos h0]
    exact ⟨_, out, rfl, hready, rfl, rfl⟩
  · rw [if_neg h0]
    obtain ⟨t', out', h1, h2, h3, h4⟩ := IoAudio.processLoop_spec c hc input samples (by omega)
      (toSizeT ((n : Nat) : Int) / samples) out (by omega) _ hready
    exact ⟨t', out', h1, h2, h3.trans rfl, h4⟩

end FrameMethods

/-! ### IoAudio: step 3 of the worker loop -/

section StepThree

variable {α E H B : Type}

theorem wholeUnits_of_lt (n : Nat) (bytes : List α) (h : bytes.length < n) :
    wholeUnits n bytes = [] := by
  simp [wholeUnits, Nat.div_eq_of_lt h]

theorem wholeUnits_of_le (n : Nat) (hn : 0 < n) (bytes : List α) (h : n ≤ bytes.length) :
    wholeUnits n bytes = bytes.take n :: wholeUnits n (bytes.drop n) := by
  unfold wholeUnits
  rw [Nat.div_eq_sub_div hn h, List.range_succ_eq_map, List.map_cons, List.map_map,
    List.length_drop]
  simp only [Nat.zero_mul, List.drop_zero, List.cons.injEq, true_and]
  apply List.map_congr_left
  intro i _
  simp only [Function.comp, List.drop_drop]
  rw [Nat.succ_mul, Nat.add_comm]

theorem length_wholeUnits (n : Nat) (bytes : List α) :
    (wholeUnits n bytes).length = bytes.length / n := by
  simp [wholeUnits]

theorem length_drop_units (n : Nat) (hn : 0 < n) (bytes : List α) :
    (bytes.drop (bytes.length / n * n)).length < n := by
  rw [List.length_drop]
  have h1 := Nat.div_add_mod bytes.length n
  have h2 := Nat.mod_lt bytes.length hn
  have h3 : n * (bytes.length / n) = bytes.length / n * n := Nat.mul_comm _ _
  omega

theorem units_step (n len : Nat) (hn : 0 < n) (h : n ≤ len) :
    len / n * n = n + (len - n) / n * n := by
  rw [Nat.div_eq_sub_div hn h, Nat.add_mul, Nat.one_mul, Nat.add_comm]

/-- With a reliable library, the echo session set up and a positive unit
size, the inner loop ends: it hands every whole unit of the far-end-mirror
queue to `aecPutFarEndFrame`, oldest first, and leaves less than one unit. -/
theorem IoAudio.drainEcho_spec (c : Webrtc α E H B) (hc : c.Reliable) (MIN : Nat)
    (hMIN : 0 < MIN) (fuel : Nat) (t : IoAudio α E H B) (ht : t.AecReady)
    (hfuel : t._echoBuff.size / MIN ≤ fuel) :
    ∃ t', IoAudio.drainEcho c MIN fuel t = (t', .ok ()) ∧ t'.AecReady ∧
      t'.view = { t.view with
        echo := t.view.echo.drop (t.view.echo.length / MIN * MIN)
        calls := t.view.calls ++ (wholeUnits MIN t.view.echo).map fun u =>
          AecCall.aecPutFarEndFrame u ((MIN / 2 : Nat) : Int) } := by
  induction fuel generalizing t with
  | zero =>
    have hlt : t._echoBuff.bytes.length < MIN := by
      have h0 : t._echoBuff.size / MIN = 0 := Nat.le_zero.mp hfuel
      rcases (Nat.div_eq_zero_iff hMIN).mp h0 with h
      exact h
    refine ⟨t, ?_, ht, ?_⟩
    · simp [IoAudio.drainEcho, bind, Prog.andThen, Prog.read, RingBuffer.size, not_le.mpr hlt,
        Prog.ret]
    · simp [IoAudio.view, wholeUnits, Nat.div_eq_of_lt hlt]
  | succ fuel ih =>
    by_cases hlt : t._echoBuff.bytes.length < MIN
    · refine ⟨t, ?_, ht, ?_⟩
      · simp [IoAudio.drainEcho, bind, Prog.andThen, Prog.read, RingBuffer.size,
          not_le.mpr hlt, Prog.ret]
      · simp [IoAudio.view, wholeUnits, Nat.div_eq_of_lt hlt]
    · have hge : MIN ≤ t._echoBuff.size := not_lt.mp hlt
      have hpop : t._echoBuff.pop MIN =
          (t._echoBuff.bytes.take MIN, ⟨t._echoBuff.bytes.drop MIN⟩) := by
        simp [RingBuffer.pop, hlt]
      have htake : 2 * (MIN / 2) ≤ (t._echoBuff.pop MIN).1.length := by
        rw [hpop]
        simp only [List.length_take]
        have := hge
        simp only [RingBuffer.size] at this
        omega
      obtain ⟨t1, h1, hr1, hv1⟩ := IoAudio.aecPutFarEndFrame_spec c hc
        (t._echoBuff.pop MIN).1 (MIN / 2) htake
        { t with _echoBuff := (t._echoBuff.pop MIN).2 } ht
      have hecho1 : t1._echoBuff.bytes = t._echoBuff.bytes.drop MIN := by
        have := congrArg IoAudio.View.echo hv1
        simpa [IoAudio.view, hpop] using this
      have hfuel1 : t1._echoBuff.size / MIN ≤ fuel := by
        have h2 := Nat.div_eq_sub_div hMIN hge
        simp only [RingBuffer.size] at h2 hfuel ⊢
        rw [hecho1, List.length_drop]
        omega
      obtain ⟨t', h2, hr2, hv2⟩ := ih t1 hr1 hfuel1
      refine ⟨t', ?_, hr2, ?_⟩
      · simp only [IoAudio.drainEcho, bind, Prog.andThen, Prog.read, if_pos hge, Prog.modify]
        rw [h1]
        exact h2
      · rw [hv2, hv1]
        have hlen : MIN ≤ t._echoBuff.bytes.length := hge
        simp only [IoAudio.view, hpop, List.length_drop, List.drop_drop,
          wholeUnits_of_le MIN hMIN _ hlen, List.map_cons, List.append_assoc,
          List.singleton_append, units_step MIN _ hMIN hlen]

/-- The outer loop when the capture-pending queue holds less than one unit:
nothing happens. -/
theorem IoAudio.frameProcessingLoop_rest (c : Webrtc α E H B) (MIN : Nat) (zero : α)
    (fuel : Nat) (t : IoAudio α E H B) (hlt : t._micBuf.bytes.length < MIN) :
    IoAudio.frameProcessingLoop c MIN zero fuel t = (t, .ok []) := by
  cases fuel <;>
    simp [IoAudio.frameProcessingLoop, bind, Prog.andThen, Prog.read, RingBuffer.size,
      not_le.mpr hlt, Prog.ret]

/-- With a reliable library, the echo session set up and a positive unit
size, the outer loop ends.  It calls `aecProcess` once for each whole unit of
the capture-pending queue; at each of those calls the far-end-mirror queue
holds less than one unit and the calls made so far are `aecPutFarEndFrame` on
every whole unit the far-end-mirror queue held, oldest first, and then
`aecProcess` on the earlier near-end units.  Each call appends one result of
one unit to the outbound-ready queue. -/
theorem IoAudio.frameProcessingLoop_spec (c : Webrtc α E H B) (hc : c.Reliable) (MIN : Nat)
    (hMIN : 0 < MIN) (zero : α) (fuel : Nat) (t : IoAudio α E H B) (ht : t.AecReady)
    (hfuel : t._micBuf.size / MIN ≤ fuel) :
    ∃ (t' : IoAudio α E H B) (atCalls : List (IoAudio α E H B)) (results : List (List α)),
      IoAudio.frameProcessingLoop c MIN zero fuel t = (t', .ok atCalls) ∧
      atCalls.length = t._micBuf.bytes.length / MIN ∧
      (∀ (i : Nat) (atCall : IoAudio α E H B), atCalls[i]? = some atCall →
        atCall._echoBuff.size < MIN ∧
        atCall.aecCalls = t.aecCalls ++
          ((wholeUnits MIN t._echoBuff.bytes).map fun u =>
            AecCall.aecPutFarEndFrame u ((MIN / 2 : Nat) : Int)) ++
          (((wholeUnits MIN t._micBuf.bytes).take i).map fun u =>
            AecCall.aecProcess u ((MIN / 2 : Nat) : Int))) ∧
      results.length = t._micBuf.bytes.length / MIN ∧
      (∀ r ∈ results, r.length = MIN) ∧
      t'._sendToNetBuf.bytes = t._sendToNetBuf.bytes ++ results.flatten ∧
      t'._micBuf.bytes = t._micBuf.bytes.drop (t._micBuf.bytes.length / MIN * MIN) := by
  induction fuel generalizing t with
  | zero =>
    have hlt : t._micBuf.bytes.length < MIN := by
      have h0 : t._micBuf.size / MIN = 0 := Nat.le_zero.mp hfuel
      exact (Nat.div_eq_zero_iff hMIN).mp h0
    refine ⟨t, [], [], IoAudio.frameProcessingLoop_rest c MIN zero 0 t hlt, ?_, ?_, ?_, ?_, ?_, ?_⟩
      <;> simp [Nat.div_eq_of_lt hlt]
  | succ fuel ih =>
    by_cases hlt : t._micBuf.bytes.length < MIN
    · refine ⟨t, [], [], IoAudio.frameProcessingLoop_rest c MIN zero _ t hlt,
        ?_, ?_, ?_, ?_, ?_, ?_⟩ <;> simp [Nat.div_eq_of_lt hlt]
    · have hge : MIN ≤ t._micBuf.size := not_lt.mp hlt
      have hlen : MIN ≤ t._micBuf.bytes.length := hge
      have hpop : t._micBuf.pop MIN =
          (t._micBuf.bytes.take MIN, ⟨t._micBuf.bytes.drop MIN⟩) := by
        simp [RingBuffer.pop, hlt]
      -- the inner loop
      obtain ⟨t1, h1, hr1, hv1⟩ := IoAudio.drainEcho_spec c hc MIN hMIN
        (IoAudio._echoBuff { t with _micBuf := (t._micBuf.pop MIN).2 }).size
        { t with _micBuf := (t._micBuf.pop MIN).2 } ht (Nat.div_le_self _ _)
      have hecho1 : t1._echoBuff.bytes =
          t._echoBuff.bytes.drop (t._echoBuff.bytes.length / MIN * MIN) := by
        simpa [IoAudio.view] using congrArg IoAudio.View.echo hv1
      have hmic1 : t1._micBuf.bytes = t._micBuf.bytes.drop MIN := by
        simpa [IoAudio.view, hpop] using congrArg IoAudio.View.mic hv1
      have hnet1 : t1._sendToNetBuf.bytes = t._sendToNetBuf.bytes := by
        simpa [IoAudio.view] using congrArg IoAudio.View.net hv1
      have hcalls1 : t1.aecCalls = t.aecCalls ++
          (wholeUnits MIN t._echoBuff.bytes).map fun u =>
            AecCall.aecPutFarEndFrame u ((MIN / 2 : Nat) : Int) := by
        simpa [IoAudio.view] using congrArg IoAudio.View.calls hv1
      -- the near-end unit
      have hraw : 2 * (MIN / 2) ≤ (t._micBuf.pop MIN).1.length := by
        rw [hpop]
        simp only [List.length_take]
        omega
      have hout : 2 * (MIN / 2) ≤ (List.replicate MIN zero).length := by
        rw [List.length_replicate]; omega
      obtain ⟨t2, out', h2, hr2, hv2, hlen2⟩ := IoAudio.aecProcess_spec c hc
        (t._micBuf.pop MIN).1 (List.replicate MIN zero) (MIN / 2) hraw hout t1 hr1
      rw [List.length_replicate] at hlen2
      have hecho2 : t2._echoBuff.bytes = t1._echoBuff.bytes := by
        simpa [IoAudio.view] using congrArg IoAudio.View.echo hv2
      have hmic2 : t2._micBuf.bytes = t1._micBuf.bytes := by
        simpa [IoAudio.view] using congrArg IoAudio.View.mic hv2
      have hnet2 : t2._sendToNetBuf.bytes = t1._sendToNetBuf.bytes := by
        simpa [IoAudio.view] using congrArg IoAudio.View.net hv2
      have hcalls2 : t2.aecCalls = t1.aecCalls ++
          [AecCall.aecProcess (t._micBuf.bytes.take MIN) ((MIN / 2 : Nat) : Int)] := by
        simpa [IoAudio.view, hpop] using congrArg IoAudio.View.calls hv2
      -- the rest of the loop
      have hfuel3 : (IoAudio._micBuf
          { t2 with _sendToNetBuf := t2._sendToNetBuf.putData out' }).size / MIN ≤ fuel := by
        have h3 := Nat.div_eq_sub_div hMIN hge
        simp only [RingBuffer.size] at h3 hfuel ⊢
        rw [hmic2, hmic1, List.length_drop]
        omega
      obtain ⟨t', later, results, h3, hl, hsnap, hres, hresl, hnet, hmic⟩ :=
        ih { t2 with _sendToNetBuf := t2._sendToNetBuf.putData out' } hr2 hfuel3
      have hunits : (IoAudio._micBuf
          { t2 with _sendToNetBuf := t2._sendToNetBuf.putData out' }).bytes.length / MIN + 1 =
          t._micBuf.bytes.length / MIN := by
        have h3 := Nat.div_eq_sub_div hMIN hlen
        simp only
        rw [hmic2, hmic1, List.length_drop]
        omega
      refine ⟨t', t1 :: later, out' :: results, ?_, ?_, ?_, ?_, ?_, ?_, ?_⟩
      · simp only [IoAudio.frameProcessingLoop, bind, Prog.andThen, Prog.read, if_pos hge,
          Prog.modify]
        rw [h1]
        simp only []
        rw [h2]
        simp only []
        rw [h3]
        rfl
      · rw [List.length_cons, hl, hunits]
      · intro i atCall hi
        cases i with
        | zero =>
          simp only [List.getElem?_cons_zero, Option.some.injEq] at hi
          subst hi
          refine ⟨?_, ?_⟩
          · simp only [RingBuffer.size]
            rw [hecho1]
            exact length_drop_units MIN hMIN _
          · rw [hcalls1]
            simp
        | succ i =>
          simp only [List.getElem?_cons_succ] at hi
          obtain ⟨ha, hb⟩ := hsnap i atCall hi
          refine ⟨ha, ?_⟩
          have hempty : wholeUnits MIN t2._echoBuff.bytes = [] := by
            apply wholeUnits_of_lt
            rw [hecho2, hecho1]
            exact length_drop_units MIN hMIN _
          simp only [hempty, List.map_nil, List.append_nil] at hb
          rw [hb, hcalls2, hcalls1, hmic2, hmic1, wholeUnits_of_le MIN hMIN _ hlen,
            List.take_succ_cons, List.map_cons]
          simp only [List.append_assoc, List.singleton_append]
      · rw [List.length_cons, hres, hunits]
      · intro r hr
        rcases List.mem_cons.mp hr with rfl | hr
        · exact hlen2
        · exact hresl r hr
      · rw [hnet]
        simp only [RingBuffer.putData, List.flatten_cons, List.append_assoc]
        rw [hnet2, hnet1]
      · rw [hmic]
        simp only
        rw [hmic2, hmic1, List.length_drop, List.drop_drop, units_step MIN _ hMIN hlen]

/-- The library `recorder` never fails. -/
theorem Webrtc.recorder_reliable : Webrtc.recorder.Reliable where
  copyFrom _ _ := ⟨_, rfl⟩
  copyTo _ := ⟨_, rfl⟩
  split _ := ⟨_, rfl⟩
  merge _ := ⟨_, rfl⟩
  process _ _ _ := ⟨_, rfl⟩
  analyzeRender _ _ := ⟨_, rfl⟩
  analyzeCapture _ _ := ⟨_, rfl⟩
  setAudioBufferDelay _ _ := ⟨_, rfl⟩
  processCapture _ _ _ := ⟨_, rfl⟩

/-- C11 (render before capture, step 3 of the worker loop): with
`MIN_SAMPLE_SIZE > 0`, no other thread at the queues, the echo session set up
and a library that does not fail, for every content of the queues the
frame-processing step ends.  It calls `aecProcess` once for each whole unit of
the capture-pending queue; at every such call the far-end-mirror queue holds
less than one unit and the frame calls made since the step began are
`aecPutFarEndFrame` on every whole unit the far-end-mirror queue held, oldest
first, followed by `aecProcess` on the earlier near-end units.  Each near-end
unit appends one result of `MIN_SAMPLE_SIZE` bytes to the outbound-ready
queue, and on exit the capture-pending queue holds less than one unit. -/
theorem IoAudio.frameProcessing_render_before_capture (c : Webrtc α E H B) (hc : c.Reliable)
    (MIN_SAMPLE_SIZE : Nat) (hMIN : 0 < MIN_SAMPLE_SIZE) (zero : α) (s : IoAudio α E H B)
    (hready : s.AecReady) :
    ∃ (s' : IoAudio α E H B) (atCalls : List (IoAudio α E H B)) (results : List (List α)),
      IoAudio.frameProcessing c MIN_SAMPLE_SIZE zero s = (s', .ok atCalls) ∧
      atCalls.length = (wholeUnits MIN_SAMPLE_SIZE s._micBuf.bytes).length ∧
      (∀ (i : Nat) (atCall : IoAudio α E H B), atCalls[i]? = some atCall →
        atCall._echoBuff.size < MIN_SAMPLE_SIZE ∧
        atCall.aecCalls = s.aecCalls ++
          ((wholeUnits MIN_SAMPLE_SIZE s._echoBuff.bytes).map fun u =>
            AecCall.aecPutFarEndFrame u ((MIN_SAMPLE_SIZE / 2 : Nat) : Int)) ++
          (((wholeUnits MIN_SAMPLE_SIZE s._micBuf.bytes).take i).map fun u =>
            AecCall.aecProcess u ((MIN_SAMPLE_SIZE / 2 : Nat) : Int))) ∧
      results.length = (wholeUnits MIN_SAMPLE_SIZE s._micBuf.bytes).length ∧
      (∀ r ∈ results, r.length = MIN_SAMPLE_SIZE) ∧
      s'._sendToNetBuf.bytes = s._sendToNetBuf.bytes ++ results.flatten ∧
      s'._micBuf.size < MIN_SAMPLE_SIZE := by
  obtain ⟨s', atCalls, results, h1, h2, h3, h4, h5, h6, h7⟩ :=
    IoAudio.frameProcessingLoop_spec c hc MIN_SAMPLE_SIZE hMIN zero s._micBuf.size s hready
      (Nat.div_le_self _ _)
  refine ⟨s', atCalls, results, h1, ?_, h3, ?_, h5, h6, ?_⟩
  · rw [h2, length_wholeUnits]
  · rw [h4, length_wholeUnits]
  · simp only [RingBuffer.size]
    rw [h7]
    exact length_drop_units MIN_SAMPLE_SIZE hMIN _

/-- Witness of C11: units of 4 bytes, two whole units and a rest in each of
the far-end-mirror and capture-pending queues. -/
theorem IoAudio.frameProcessing_render_before_capture_witness :
    ∃ (s' : IoAudio Nat (List (List (List Nat))) Unit (List (List Nat)))
      (atCalls : List (IoAudio Nat (List (List (List Nat))) Unit (List (List Nat))))
      (results : List (List Nat)),
      IoAudio.frameProcessing Webrtc.recorder 4 0 IoAudio.pending = (s', .ok atCalls) ∧
      atCalls.length = (wholeUnits 4 IoAudio.pending._micBuf.bytes).length ∧
      (∀ (i : Nat) (atCall : IoAudio Nat (List (List (List Nat))) Unit (List (List Nat))),
        atCalls[i]? = some atCall →
        atCall._echoBuff.size < 4 ∧
        atCall.aecCalls = IoAudio.pending.aecCalls ++
          ((wholeUnits 4 IoAudio.pending._echoBuff.bytes).map fun u =>
            AecCall.aecPutFarEndFrame u ((4 / 2 : Nat) : Int)) ++
          (((wholeUnits 4 IoAudio.pending._micBuf.bytes).take i).map fun u =>
            AecCall.aecProcess u ((4 / 2 : Nat) : Int))) ∧
      results.length = (wholeUnits 4 IoAudio.pending._micBuf.bytes).length ∧
      (∀ r ∈ results, r.length = 4) ∧
      s'._sendToNetBuf.bytes = IoAudio.pending._sendToNetBuf.bytes ++ results.flatten ∧
      s'._micBuf.size < 4 :=
  IoAudio.frameProcessing_render_before_capture Webrtc.recorder Webrtc.recorder_reliable 4
    (by decide) 0 IoAudio.pending ⟨rfl, rfl, rfl, rfl⟩

end StepThree

/-! ### CaretAEC: what a completed frame stores -/

section FrameContent

variable {α E H B : Type}

theorem writeAt_take (buf : List α) (off : Nat) (xs : List α) :
    (writeAt buf off xs).take off = buf.take off := by
  induction buf generalizing off xs with
  | nil => simp [writeAt]
  | cons b bs ih =>
    cases off with
    | zero => simp
    | succ off => simp [writeAt, ih]

theorem frameAt_writeAt (buf : List α) (off : Nat) (xs : List α)
    (h : off + xs.length ≤ buf.length) : frameAt (writeAt buf off xs) off xs.length = xs := by
  induction buf generalizing off xs with
  | nil =>
    have h0 : off + xs.length ≤ 0 := h
    have : xs.length = 0 := by omega
    have hx : xs = [] := List.length_eq_zero.mp this
    subst hx
    simp [frameAt, writeAt]
  | cons b bs ih =>
    cases off with
    | zero =>
      have hz := writeAt_zero (b :: bs) xs (by simpa using h)
      rw [hz]
      simp [frameAt]
    | succ off =>
      simp only [writeAt, frameAt, List.drop_succ_cons]
      exact ih off xs (by have h1 : off + 1 + xs.length ≤ bs.length + 1 := h
                          omega)

theorem frameAt_of_take (out pb : List α) (m off count : Nat) (h : out.take m = pb.take m)
    (hm : off + count ≤ m) : frameAt out off count = frameAt pb off count := by
  have key : ∀ l : List α, frameAt l off count = frameAt (l.take m) off count := by
    intro l
    unfold frameAt
    rw [List.drop_take, List.take_take, Nat.min_eq_left (by omega)]
  rw [key out, key pb, h]

theorem frameAt_of_drop (out pb : List α) (off count : Nat) (h : out.drop off = pb.drop off) :
    frameAt out off count = frameAt pb off count := by
  unfold frameAt
  rw [h]

theorem foldl_writeAt_take (off : Nat) (frames : List (List α)) (pb : List α) :
    (frames.foldl (fun buf f => writeAt buf off f) pb).take off = pb.take off := by
  induction frames generalizing pb with
  | nil => rfl
  | cons f fs ih =>
    simp only [List.foldl_cons]
    rw [ih, writeAt_take]

/-! ### Rules for what a program returns -/

theorem Prog.hoare_bind {σ β γ : Type} {P : σ → Prop} {m : Prog σ β} {f : β → Prog σ γ}
    {Q : β → σ → Prop} {R : γ → σ → Prop} (hm : Prog.Hoare P m Q)
    (hf : ∀ b, Prog.Hoare (Q b) (f b) R) : Prog.Hoare P (m >>= f) R := by
  intro s hs s'' c h
  change Prog.andThen m f s = _ at h
  unfold Prog.andThen at h
  split at h
  · rename_i s' b hb
    exact hf b s' (hm s hs s' b hb) s'' c h
  · simp at h

theorem Prog.hoare_of_state {σ β : Type} {P : σ → Prop} {m : Prog σ β}
    (h : ∀ s, P s → P (m s).1) : Prog.Hoare P m (fun _ => P) := by
  intro s hs s' b hb
  have := h s hs
  rwa [hb] at this

theorem Prog.hoare_read_bind {σ γ : Type} {P : σ → Prop} {f : σ → Prog σ γ}
    {Q : γ → σ → Prop} (h : ∀ s, P s → ∀ s' b, f s s = (s', .ok b) → Q b s') :
    Prog.Hoare P (Prog.read >>= f) Q :=
  fun s hs => h s hs

theorem Prog.hoare_ret_bind {σ β γ : Type} {P : σ → Prop} {b : β} {f : β → Prog σ γ}
    {Q : γ → σ → Prop} (h : Prog.Hoare P (f b) Q) : Prog.Hoare P (Prog.ret b >>= f) Q :=
  fun s hs => h s hs

/-! ### The statements of the frame body keep the channel count -/

theorem CaretAEC.onBuffer_channels (which : CaretAEC.Staging) (method : B → Except Fault B)
    (s : CaretAEC E H B) : (CaretAEC.onBuffer which method s).1.channels_ = s.channels_ := by
  unfold CaretAEC.onBuffer
  split
  · rfl
  · split
    · cases which <;> rfl
    · rfl

theorem CaretAEC.onEngine_channels (call : EngineCall) (which : CaretAEC.Staging)
    (method : E → B → Except Fault (E × B)) (s : CaretAEC E H B) :
    (CaretAEC.onEngine call which method s).1.channels_ = s.channels_ := by
  unfold CaretAEC.onEngine
  split
  · split
    · cases which <;> rfl
    · rfl
  · rfl

theorem CaretAEC.setAudioBufferDelay_channels (c : Webrtc α E H B) (delay : Int)
    (s : CaretAEC E H B) :
    (CaretAEC.setAudioBufferDelay c delay s).1.channels_ = s.channels_ := by
  unfold CaretAEC.setAudioBufferDelay
  split
  · rfl
  · simp only
    split <;> rfl

theorem CaretAEC.highPass_channels (c : Webrtc α E H B) (flag : Bool) (s : CaretAEC E H B) :
    (CaretAEC.highPass c flag s).1.channels_ = s.channels_ := by
  unfold CaretAEC.highPass
  split
  · split <;> rfl
  · rfl

/-- What a completed `CopyTo` leaves: the session as it was, and in the result
buffer, for each channel in turn, the frame the staging buffer yields, stored
at the frame offset. -/
theorem CaretAEC.copyTo_exact (c : Webrtc α E H B) (channels spf off : Nat) (pb : List α)
    (ch : Int) :
    Prog.Hoare (fun t : CaretAEC E H B => t.channels_ = ch)
      (CaretAEC.copyTo c channels spf off pb)
      (fun out t => t.channels_ = ch ∧ ∃ b g, t.aec_audio_ = some b ∧ c.CopyTo b = .ok g ∧
        out = (List.range channels).foldl
          (fun buf k => writeAt buf off (List.ofFn fun i : Fin spf => g k i)) pb) := by
  intro s hs s' out h
  unfold CaretAEC.copyTo at h
  split at h
  · simp at h
  · rename_i b hb
    split at h
    · rename_i g hg
      simp only [Prod.mk.injEq, Except.ok.injEq] at h
      obtain ⟨rfl, rfl⟩ := h
      exact ⟨hs, b, g, hb, hg, rfl⟩
    · simp at h

/-- What a completed frame leaves: the channel count as it was, and in the
result buffer, for each channel in turn, the frame the near-end staging buffer
yields at the end of the frame, stored at the frame offset. -/
theorem CaretAEC.processFrame_exact (c : Webrtc α E H B) (far near : List α)
    (spf frame : Nat) (pb : List α) (ch : Int) :
    Prog.Hoare (fun t : CaretAEC E H B => t.channels_ = ch)
      (CaretAEC.processFrame c far near spf frame pb)
      (fun out t => t.channels_ = ch ∧ ∃ b g, t.aec_audio_ = some b ∧ c.CopyTo b = .ok g ∧
        out = (List.range ch.toNat).foldl
          (fun buf k => writeAt buf (frame * spf) (List.ofFn fun i : Fin spf => g k i)) pb) := by
  unfold CaretAEC.processFrame
  refine Prog.hoare_read_bind fun s hs => ?_
  by_cases hneg : s.channels_ < 0
  · intro s' b h
    have hcv : CaretAEC.channelVectors (E := E) (H := H) (B := B) s.channels_ =
        Prog.raise (.exception "cannot create std::vector larger than max_size()") := by
      simp only [CaretAEC.channelVectors]
      rw [if_pos hneg]
    rw [hcv] at h
    change Prog.andThen _ _ s = _ at h
    simp [Prog.andThen, Prog.raise] at h
  · have hcv : CaretAEC.channelVectors (E := E) (H := H) (B := B) s.channels_ =
        Prog.ret s.channels_.toNat := by
      simp only [CaretAEC.channelVectors]
      rw [if_neg hneg]
    rw [hcv]
    subst hs
    refine (Prog.hoare_ret_bind (P := fun t : CaretAEC E H B => t.channels_ = s.channels_) ?_)
      s rfl
    refine Prog.hoare_bind (Prog.hoare_of_state fun t ht =>
      (CaretAEC.onBuffer_channels _ _ t).trans ht) fun _ => ?_
    refine Prog.hoare_bind (Prog.hoare_of_state fun t ht =>
      (CaretAEC.onBuffer_channels _ _ t).trans ht) fun _ => ?_
    refine Prog.hoare_bind (Prog.hoare_of_state fun t ht =>
      (CaretAEC.onEngine_channels _ _ _ t).trans ht) fun _ => ?_
    refine Prog.hoare_bind (Prog.hoare_of_state fun t ht =>
      (CaretAEC.onBuffer_channels _ _ t).trans ht) fun _ => ?_
    refine Prog.hoare_bind (Prog.hoare_of_state fun t ht =>
      (CaretAEC.onBuffer_channels _ _ t).trans ht) fun _ => ?_
    refine Prog.hoare_bind (Prog.hoare_of_state fun t ht =>
      (CaretAEC.onEngine_channels _ _ _ t).trans ht) fun _ => ?_
    refine Prog.hoare_bind (Prog.hoare_of_state fun t ht =>
      (CaretAEC.onBuffer_channels _ _ t).trans ht) fun _ => ?_
    refine Prog.hoare_bind (Prog.hoare_of_state fun t ht =>
      (CaretAEC.highPass_channels _ _ t).trans ht) fun _ => ?_
    refine Prog.hoare_bind (Prog.hoare_of_state fun t ht =>
      (CaretAEC.setAudioBufferDelay_channels _ _ t).trans ht) fun _ => ?_
    refine Prog.hoare_bind (Prog.hoare_of_state fun t ht =>
      (CaretAEC.onEngine_channels _ _ _ t).trans ht) fun _ => ?_
    refine Prog.hoare_bind (Prog.hoare_of_state fun t ht =>
      (CaretAEC.onBuffer_channels _ _ t).trans ht) fun _ => ?_
    exact CaretAEC.copyTo_exact c _ spf _ pb s.channels_

/-- The completed frame `frame`, seen from the result buffer: the channel count
and the size are kept, the samples outside the frame are kept, and inside a
buffer that holds the frame the samples of the frame are those the near-end
staging buffer yields for the last channel (none are stored for a channel
count of 0). -/
theorem CaretAEC.processFrame_frame (c : Webrtc α E H B) (far near : List α)
    (spf frame : Nat) (pb pb1 : List α) (s s1 : CaretAEC E H B)
    (h : CaretAEC.processFrame c far near spf frame pb s = (s1, .ok pb1)) :
    s1.channels_ = s.channels_ ∧ pb1.length = pb.length ∧
      pb1.take (frame * spf) = pb.take (frame * spf) ∧
      (∀ m, (frame + 1) * spf ≤ m → pb1.drop m = pb.drop m) ∧
      (s.channels_.toNat = 0 → pb1 = pb) ∧
      ((frame + 1) * spf ≤ pb.length → 0 < s.channels_.toNat →
        ∃ b g, s1.aec_audio_ = some b ∧ c.CopyTo b = .ok g ∧
          frameAt pb1 (frame * spf) spf =
            List.ofFn fun i : Fin spf => g (s.channels_.toNat - 1) i) := by
  obtain ⟨hch, b, g, hb, hg, hout⟩ :=
    CaretAEC.processFrame_exact c far near spf frame pb s.channels_ s rfl s1 pb1 h
  obtain ⟨hlen, hdrop⟩ := CaretAEC.processFrame_returns c far near spf frame pb s s1 pb1 h
  refine ⟨hch, hlen, ?_, hdrop, ?_, ?_⟩
  · rw [hout]
    have := foldl_writeAt_take (frame * spf)
      ((List.range s.channels_.toNat).map fun k => List.ofFn fun i : Fin spf => g k i) pb
    simpa [List.foldl_map] using this
  · intro h0
    rw [hout, h0]
    rfl
  · intro hin hpos
    refine ⟨b, g, hb, hg, ?_⟩
    obtain ⟨n, hn⟩ : ∃ n, s.channels_.toNat = n + 1 := ⟨s.channels_.toNat - 1, by omega⟩
    rw [hout, hn, List.range_succ, List.foldl_append]
    simp only [List.foldl_cons, List.foldl_nil, Nat.add_sub_cancel]
    have hkeep := foldl_writeAt_keeps (frame * spf)
      ((List.range n).map fun k => List.ofFn fun i : Fin spf => g k i) spf
      (by
        intro f hf
        simp only [List.mem_map] at hf
        obtain ⟨k, -, rfl⟩ := hf
        simp) pb
    rw [List.foldl_map] at hkeep
    have hlen2 : (List.ofFn fun i : Fin spf => g n i).length = spf := by simp
    have := frameAt_writeAt
      ((List.range n).foldl
        (fun buf k => writeAt buf (frame * spf) (List.ofFn fun i : Fin spf => g k i)) pb)
      (frame * spf) (List.ofFn fun i : Fin spf => g n i)
      (by rw [hlen2, hkeep.1]; rw [Nat.add_mul] at hin; omega)
    rw [hlen2] at this
    exact this

/-- The frames of a completed frame loop, seen from the result buffer: frame
`frame + i` of the result holds what the near-end staging buffer yields for
the last channel in the session as it is after the first `i + 1` frames of
the loop (for a channel count of 0 it holds what the buffer held). -/
theorem CaretAEC.frameLoop_frames (c : Webrtc α E H B) (far near : List α) (spf : Nat)
    (k frame : Nat) (pb out : List α) (s s' : CaretAEC E H B)
    (h : CaretAEC.frameLoop c far near spf k frame pb s = (s', .ok out))
    (hin : (frame + k) * spf ≤ pb.length) :
    out.take (frame * spf) = pb.take (frame * spf) ∧
    ∀ i, i < k →
      ∃ (si : CaretAEC E H B) (pbi : List α),
        CaretAEC.frameLoop c far near spf (i + 1) frame pb s = (si, .ok pbi) ∧
        (s.channels_.toNat = 0 →
          frameAt out ((frame + i) * spf) spf = frameAt pb ((frame + i) * spf) spf) ∧
        (0 < s.channels_.toNat →
          ∃ b g, si.aec_audio_ = some b ∧ c.CopyTo b = .ok g ∧
            frameAt out ((frame + i) * spf) spf =
              List.ofFn fun j : Fin spf => g (s.channels_.toNat - 1) j) := by
  induction k generalizing frame pb s with
  | zero =>
    simp only [CaretAEC.frameLoop, Prog.ret, Prod.mk.injEq, Except.ok.injEq] at h
    obtain ⟨-, rfl⟩ := h
    exact ⟨rfl, fun i hi => absurd hi (Nat.not_lt_zero i)⟩
  | succ k ih =>
    unfold CaretAEC.frameLoop at h
    change Prog.andThen _ _ s = _ at h
    unfold Prog.andThen at h
    split at h
    · rename_i s1 pb1 h1
      obtain ⟨hch, hlen, htake, hdrop, hzero, hlast⟩ :=
        CaretAEC.processFrame_frame c far near spf frame pb pb1 s s1 h1
      have hin1 : (frame + 1 + k) * spf ≤ pb1.length := by
        rw [hlen]
        have e : frame + 1 + k = frame + (k + 1) := by omega
        rw [e]; exact hin
      obtain ⟨htake2, hframes⟩ := ih (frame + 1) pb1 s1 h hin1
      have hmono : frame * spf ≤ (frame + 1) * spf := Nat.mul_le_mul_right spf (by omega)
      have htake3 : out.take (frame * spf) = pb.take (frame * spf) := by
        have := congrArg (List.take (frame * spf)) htake2
        rw [List.take_take, List.take_take, Nat.min_eq_left hmono] at this
        rw [this, htake]
      refine ⟨htake3, fun i hi => ?_⟩
      cases i with
      | zero =>
        refine ⟨s1, pb1, ?_, ?_, ?_⟩
        · simp only [CaretAEC.frameLoop, bind, Prog.andThen, h1, Prog.ret]
        · intro h0
          have e : pb1 = pb := hzero h0
          rw [Nat.add_zero, ← e]
          exact frameAt_of_take out pb1 ((frame + 1) * spf) (frame * spf) spf htake2
            (by rw [Nat.add_mul]; omega)
        · intro hpos
          obtain ⟨b, g, hb, hg, hfr⟩ := hlast
            (le_trans (Nat.mul_le_mul_right spf (by omega)) hin) hpos
          refine ⟨b, g, hb, hg, ?_⟩
          rw [Nat.add_zero, ← hfr]
          exact frameAt_of_take out pb1 ((frame + 1) * spf) (frame * spf) spf htake2
            (by rw [Nat.add_mul]; omega)
      | succ i =>
        obtain ⟨si, pbi, hrun, hz, hp⟩ := hframes i (by omega)
        have e : frame + 1 + i = frame + (i + 1) := by omega
        rw [e] at hz hp
        refine ⟨si, pbi, ?_, ?_, ?_⟩
        · simp only [CaretAEC.frameLoop, bind, Prog.andThen, h1]
          simpa only [CaretAEC.frameLoop, bind, Prog.andThen] using hrun
        · intro h0
          rw [hz (by rw [hch]; exact h0)]
          exact frameAt_of_drop pb1 pb _ spf
            (hdrop _ (Nat.mul_le_mul_right spf (by omega)))
        · intro hpos
          rw [← hch]
          exact hp (by rw [hch]; exact hpos)
    · simp at h

end FrameContent

/-! ### CaretAEC: the size and the frames of the result -/

section ResultFrames

variable {α E H B : Type}

/-- C2 as amended: on a session that passes the guards, at sample rate `R` with
frame size `F = R / 100 ≥ 1`, and for equal-length buffers of `n` samples,
every result of `applyingEchoCancellation` has exactly `n` samples.  Each
whole frame is overwritten in place: for `i < n / F`, with a channel count of
at least 1, the samples `[i * F, (i + 1) * F)` of the result are the `F`
samples `CopyTo` yields for the last channel from the near-end staging buffer
of the session as it is after the first `i + 1` frames; with a channel count
of 0 nothing is stored and they are the near-end samples.  The samples from
position `n / F * F` on (the remainder below one frame) are the near-end
samples unchanged.  With a reliable library and a channel count that is not
negative the call does return. -/
theorem CaretAEC.applyingEchoCancellation_length (c : Webrtc α E H B) (s : CaretAEC E H B)
    (far near : List α) (R : Nat) (hready : s.notReady = false) (hR : s.sample_rate_ = R)
    (hint : R < 2 ^ 31) (hF : 1 ≤ R / 100) (hlen : far.length = near.length) :
    (∀ s' out, CaretAEC.applyingEchoCancellation c far near s = (s', .ok out) →
      out.length = near.length ∧
        out.drop (near.length / (R / 100) * (R / 100)) =
          near.drop (near.length / (R / 100) * (R / 100)) ∧
        ∀ i, i < near.length / (R / 100) →
          ∃ (si : CaretAEC E H B) (pbi : List α),
            CaretAEC.frameLoop c far near (R / 100) (i + 1) 0 near s = (si, .ok pbi) ∧
            (s.channels_.toNat = 0 →
              frameAt out (i * (R / 100)) (R / 100) = frameAt near (i * (R / 100)) (R / 100)) ∧
            (0 < s.channels_.toNat →
              ∃ b g, si.aec_audio_ = some b ∧ c.CopyTo b = .ok g ∧
                frameAt out (i * (R / 100)) (R / 100) =
                  List.ofFn fun j : Fin (R / 100) => g (s.channels_.toNat - 1) j)) ∧
    (c.Reliable → 0 ≤ s.channels_ →
      ∃ s' out, CaretAEC.applyingEchoCancellation c far near s = (s', .ok out)) := by
  have hspf : toSizeT (Int.tdiv s.sample_rate_ 100) = R / 100 := by
    rw [hR]; exact toSizeT_rate R hint
  have hrun := CaretAEC.applyingEchoCancellation_ready c s far near hready hlen
    (by rw [hspf]; omega)
  rw [hspf] at hrun
  rw [hrun]
  constructor
  · intro s' out h
    obtain ⟨h1, h2⟩ := CaretAEC.frameLoop_returns c far near _ _ 0 near s s' out h
    obtain ⟨-, h3⟩ := CaretAEC.frameLoop_frames c far near (R / 100)
      (near.length / (R / 100)) 0 near out s s' h
      (by rw [Nat.zero_add]; exact Nat.div_mul_le_self _ _)
    refine ⟨h1, h2 _ (by simp), fun i hi => ?_⟩
    obtain ⟨si, pbi, hrun, hz, hp⟩ := h3 i hi
    rw [Nat.zero_add] at hz hp
    exact ⟨si, pbi, hrun, hz, hp⟩
  · intro hc hch
    obtain ⟨-, out, hout⟩ := CaretAEC.frameLoop_total c hc far near (R / 100)
      (near.length / (R / 100)) 0 near s ⟨hready, hch⟩
    exact ⟨_, out, Prod.ext rfl hout⟩

/-- Witness of C2 as amended: 16 kHz, one channel, buffers of 200 samples. -/
theorem CaretAEC.applyingEchoCancellation_length_witness :
    (∀ s' out, CaretAEC.applyingEchoCancellation Webrtc.silencer (List.replicate 200 5)
        (List.replicate 200 7) (CaretAEC.started 16000) = (s', .ok out) →
      out.length = (List.replicate 200 7).length ∧
        out.drop ((List.replicate 200 7).length / (16000 / 100) * (16000 / 100)) =
          (List.replicate 200 7).drop
            ((List.replicate 200 7).length / (16000 / 100) * (16000 / 100)) ∧
        ∀ i, i < (List.replicate 200 7).length / (16000 / 100) →
          ∃ (si : CaretAEC Unit Unit (List (List Nat))) (pbi : List Nat),
            CaretAEC.frameLoop Webrtc.silencer (List.replicate 200 5) (List.replicate 200 7)
              (16000 / 100) (i + 1) 0 (List.replicate 200 7) (CaretAEC.started 16000) =
                (si, .ok pbi) ∧
            ((CaretAEC.started 16000).channels_.toNat = 0 →
              frameAt out (i * (16000 / 100)) (16000 / 100) =
                frameAt (List.replicate 200 7) (i * (16000 / 100)) (16000 / 100)) ∧
            (0 < (CaretAEC.started 16000).channels_.toNat →
              ∃ b g, si.aec_audio_ = some b ∧ Webrtc.silencer.CopyTo b = .ok g ∧
                frameAt out (i * (16000 / 100)) (16000 / 100) =
                  List.ofFn fun j : Fin (16000 / 100) =>
                    g ((CaretAEC.started 16000).channels_.toNat - 1) j)) ∧
    (Webrtc.silencer.Reliable → 0 ≤ (CaretAEC.started 16000).channels_ →
      ∃ s' out, CaretAEC.applyingEchoCancellation Webrtc.silencer (List.replicate 200 5)
        (List.replicate 200 7) (CaretAEC.started 16000) = (s', .ok out)) :=
  CaretAEC.applyingEchoCancellation_length Webrtc.silencer (CaretAEC.started 16000)
    (List.replicate 200 5) (List.replicate 200 7) 16000 (by decide) (by decide) (by norm_num)
    (by norm_num) (by rw [List.length_replicate, List.length_replicate])

end ResultFrames
